import Mathlib

/-!
Verification of the omj-validator submission-processing pipeline.

This file gives a shallow embedding, in Lean 4, of the pure logic of the
pipeline components implemented in the repository:

* `app/ai/parsing.py` — score normalization (`normalize_omj_score`), the
  multi-strategy JSON extraction (`_extract_json_from_text`) and the
  response parser (`parse_ai_response`);
* `app/main.py` — the admission gate of `submit_solution` together with
  `_calculate_retry_after` and `_calculate_rate_limit_headers`;
* `app/websocket/progress.py` — the progress broadcast hub
  (`ProgressManager`);
* `app/websocket/handler.py` — the background orchestrator
  (`process_submission_background`);
* `app/ai/providers/gemini.py` — the remote-file cache
  (`_check_cached_file` / `_upload_file`).

Conventions of the embedding: wall-clock timestamps are modelled as
integer seconds; Python exceptions raised by library calls (`int(...)`,
enum conversion, model validation) are modelled as `Option`/explicit
error branches; the external world (database, remote backend, clock) is
passed in explicitly as function arguments.
-/

namespace OmjValidator

/-- `IssueType` from `app/models.py`: abuse-detection verdict. -/
inductive IssueType where
  | none
  | wrong_task
  | injection
  deriving DecidableEq, Repr

/-- `SubmissionResult` from `app/models.py` (scoring_meta omitted: opaque
metadata object never inspected by the parser logic verified here). -/
structure SubmissionResult where
  score : Int
  feedback : String
  issue_type : IssueType
  abuse_score : Int
  deriving DecidableEq, Repr

/-- `VALID_SCORES_ETAP1` from `app/ai/parsing.py`. -/
def VALID_SCORES_ETAP1 : List Int := [0, 1, 3]

/-- `VALID_SCORES_ETAP2` from `app/ai/parsing.py` (also used for etap 3). -/
def VALID_SCORES_ETAP2 : List Int := [0, 2, 5, 6]

/-- `normalize_omj_score` from `app/ai/parsing.py`: snap a raw provider
score to the finite valid score set of the competition stage. -/
def normalize_omj_score (score : Int) (etap : String) : Int :=
  if etap = "etap1" then
    if score ∈ VALID_SCORES_ETAP1 then score
    else if score ≤ 0 then 0
    else if score ≤ 2 then 1
    else 3
  else
    if score ∈ VALID_SCORES_ETAP2 then score
    else if score ≤ 1 then 0
    else if score ≤ 3 then 2
    else if score ≤ 5 then 5
    else 6

/-!
## JSON values and `json.loads`

`_extract_json_from_text` feeds candidate substrings to Python's
`json.loads`.  We model JSON values as produced by `json.loads`:
object fields are kept in textual order, duplicates included, and a
lookup takes the *last* binding for a key (Python dict construction
order).  Non-integer number lexemes are kept as exact decimal
rationals (Python uses IEEE-754 doubles; no verified claim depends on
float rounding), and the `NaN` / `Infinity` / `-Infinity` extensions
accepted by `json.loads` get their own constructors.  Strings are
lists of characters.
-/

/-- A decoded JSON value (result of Python `json.loads`). -/
inductive Json where
  | null
  | bool (b : Bool)
  | num (n : Int)
  | dec (q : Rat)
  | nan
  | inf
  | ninf
  | str (s : List Char)
  | arr (items : List Json)
  | obj (fields : List (List Char × Json))

/-- The whitespace characters skipped by Python's `json` module
between tokens (`[ \t\n\r]`). -/
def jsonWs (c : Char) : Bool :=
  c = ' ' || c = '\t' || c = '\n' || c = '\r'

/-- Skip JSON inter-token whitespace. -/
def skipJsonWs (s : List Char) : List Char := s.dropWhile jsonWs

/-- Value of a hexadecimal digit, for `\uXXXX` escapes. -/
def hexVal (c : Char) : Option Nat :=
  if '0' ≤ c ∧ c ≤ '9' then some (c.toNat - 48)
  else if 'a' ≤ c ∧ c ≤ 'f' then some (c.toNat - 87)
  else if 'A' ≤ c ∧ c ≤ 'F' then some (c.toNat - 55)
  else none

/-- Single-character JSON string escapes (`\"`, `\\`, `\/`, `\b`,
`\f`, `\n`, `\r`, `\t`). -/
def jsonEscChar (c : Char) : Option Char :=
  if c = '"' then some '"'
  else if c = '\\' then some '\\'
  else if c = '/' then some '/'
  else if c = 'b' then some '\x08'
  else if c = 'f' then some '\x0c'
  else if c = 'n' then some '\n'
  else if c = 'r' then some '\r'
  else if c = 't' then some '\t'
  else none

/-- Parse the body of a JSON string (opening quote already consumed):
returns the decoded characters and the remaining input after the
closing quote.  Unescaped control characters are rejected, as by
`json.loads` in its default strict mode. -/
def parseJsonString : List Char → Option (List Char × List Char)
  | [] => none
  | c :: rest =>
    if c = '"' then some ([], rest)
    else if c = '\\' then
      match rest with
      | [] => none
      | e :: rest2 =>
        if e = 'u' then
          match rest2 with
          | h1 :: h2 :: h3 :: h4 :: rest3 =>
            match hexVal h1, hexVal h2, hexVal h3, hexVal h4 with
            | some a, some b, some c2, some d =>
              match parseJsonString rest3 with
              | some (s, r) => some (Char.ofNat (((a * 16 + b) * 16 + c2) * 16 + d) :: s, r)
              | none => none
            | _, _, _, _ => none
          | _ => none
        else
          match jsonEscChar e with
          | some ch =>
            match parseJsonString rest2 with
            | some (s, r) => some (ch :: s, r)
            | none => none
          | none => none
    else if c.toNat < 32 then none
    else
      match parseJsonString rest with
      | some (s, r) => some (c :: s, r)
      | none => none

/-- Accumulate decimal digits into a natural number. -/
def digitsToNat (acc : Nat) : List Char → Nat
  | [] => acc
  | c :: rest => digitsToNat (acc * 10 + (c.toNat - 48)) rest

/-- Floor of the base-2 logarithm, with explicit fuel (the first
argument bounds the recursion depth; `natLog2` supplies `n` itself,
which always suffices). -/
def natLog2Aux : Nat → Nat → Nat
  | 0, _ => 0
  | fuel + 1, n => if n ≤ 1 then 0 else natLog2Aux fuel (n / 2) + 1

/-- Floor of the base-2 logarithm of a natural number (0 for 0). -/
def natLog2 (n : Nat) : Nat := natLog2Aux n n

/-- Round `x / y` (with `y > 0`) to the nearest natural number, ties
to even, as IEEE 754 rounds a mantissa. -/
def roundHalfEven (x y : Nat) : Nat :=
  let q := x / y
  let r := x % y
  if y < 2 * r then q + 1
  else if 2 * r < y then q
  else if q % 2 = 0 then q else q + 1

/-- The IEEE 754 binary64 value nearest to the positive rational
`n / d` (round to nearest, ties to even; subnormals included), as an
exact rational; `none` when the rounded magnitude reaches `2^1024`,
i.e. the conversion overflows to infinity. -/
def ratAbsToDouble (n d : Nat) : Option Rat :=
  let a := natLog2 n
  let b := natLog2 d
  let e0 : Int := if d * 2 ^ a ≤ n * 2 ^ b then (a : Int) - b else (a : Int) - b - 1
  if 1024 ≤ e0 then none
  else
    let e : Int := max e0 (-1022)
    let shift : Int := 52 - e
    let x := n * 2 ^ shift.toNat
    let y := d * 2 ^ (-shift).toNat
    let m := roundHalfEven x y
    if 2 ^ 53 ≤ m ∧ e = 1023 then none
    else some ((m : Rat) / (2 : Rat) ^ shift)

/-- The IEEE 754 binary64 value nearest to a rational, as an exact
rational; `none` on overflow to an infinity.  This is what Python's
`float(decimal_string)` (used by `json.loads` for every non-integer
number lexeme) produces, since CPython's decimal-to-float conversion
is correctly rounded. -/
def ratToDouble (q : Rat) : Option Rat :=
  if q = 0 then some 0
  else if 0 < q then ratAbsToDouble q.num.toNat q.den
  else (ratAbsToDouble (-q.num).toNat q.den).map (fun v => -v)

/-- The decoded JSON value of a non-integer number lexeme with exact
decimal value `q`: the nearest IEEE 754 double, or an infinity when
the conversion overflows (`float("1e400")` is `inf`). -/
def jsonFloat (q : Rat) : Json :=
  match ratToDouble q with
  | some v => Json.dec v
  | none => if q < 0 then Json.ninf else Json.inf

/-- The fraction/exponent tail of a JSON number token (`intDigits`
already consumed): mirrors the optional `(\.\d+)?([eE][-+]?\d+)?`
groups of `NUMBER_RE`.  An integer lexeme (no fraction, no exponent)
decodes to `Json.num`; otherwise to the IEEE 754 double nearest to
its exact decimal value (`Json.dec`, or an infinity on overflow). -/
def parseJsonNumberTail (neg : Bool) (intDigits : List Char) (s2 : List Char) :
    Option (Json × List Char) :=
  -- optional fraction: `.` followed by at least one digit
  let fracSplit : List Char × List Char :=
    match s2 with
    | '.' :: d :: r2 =>
      if d.isDigit then ((d :: r2).takeWhile Char.isDigit, (d :: r2).dropWhile Char.isDigit)
      else ([], s2)
    | _ => ([], s2)
  let fracDigits := fracSplit.1
  let s3 := if fracDigits.isEmpty then s2 else fracSplit.2
  -- optional exponent: `e`/`E`, optional sign, at least one digit
  let expSplit : Option (Bool × List Char) × List Char :=
    match s3 with
    | e :: r3 =>
      if e = 'e' ∨ e = 'E' then
        match r3 with
        | '-' :: d :: r4 =>
          if d.isDigit then (some (true, (d :: r4).takeWhile Char.isDigit), (d :: r4).dropWhile Char.isDigit)
          else (none, s3)
        | '+' :: d :: r4 =>
          if d.isDigit then (some (false, (d :: r4).takeWhile Char.isDigit), (d :: r4).dropWhile Char.isDigit)
          else (none, s3)
        | d :: r4 =>
          if d.isDigit then (some (false, (d :: r4).takeWhile Char.isDigit), (d :: r4).dropWhile Char.isDigit)
          else (none, s3)
        | [] => (none, s3)
      else (none, s3)
    | [] => (none, s3)
  let rest := if (expSplit.1).isSome then expSplit.2 else s3
  let intVal : Int := Int.ofNat (digitsToNat 0 intDigits)
  if fracDigits.isEmpty ∧ (expSplit.1).isNone then
    some (Json.num (if neg then -intVal else intVal), rest)
  else
    let mantissa : Rat :=
      (Int.ofNat (digitsToNat 0 (intDigits ++ fracDigits)) : Rat) /
        ((10 : Rat) ^ fracDigits.length)
    let expVal : Int :=
      match expSplit.1 with
      | some (eneg, eds) =>
        let v : Int := Int.ofNat (digitsToNat 0 eds)
        if eneg then -v else v
      | none => 0
    let q : Rat := mantissa * (10 : Rat) ^ expVal
    some (jsonFloat (if neg then -q else q), rest)

/-- The integer part of a JSON number token (sign already consumed):
a leading `0` is a complete integer part by itself; otherwise the
maximal digit run. -/
def parseJsonNumberCore (neg : Bool) : List Char → Option (Json × List Char)
  | [] => none
  | c :: r1 =>
    if ¬ c.isDigit then none
    else
      parseJsonNumberTail neg
        (if c = '0' then ['0'] else (c :: r1).takeWhile Char.isDigit)
        (if c = '0' then r1 else (c :: r1).dropWhile Char.isDigit)

/-- Parse a JSON number token, mirroring the `NUMBER_RE` regex of the
Python `json` module: `-?(0|[1-9]\d*)(\.\d+)?([eE][-+]?\d+)?`. -/
def parseJsonNumber (s : List Char) : Option (Json × List Char) :=
  let neg : Bool :=
    match s with
    | c :: _ => c = '-'
    | [] => false
  parseJsonNumberCore neg (if neg then s.drop 1 else s)

mutual

/-- Parse a JSON value at the current position (no leading whitespace),
mirroring `_scan_once` of the Python `json` scanner.  The `Nat` fuel
decreases on every recursive call; every recursive call is preceded by
the consumption of at least one input character, so a fuel of
`input length + 1` never runs out. -/
def parseJsonValue : Nat → List Char → Option (Json × List Char)
  | 0, _ => none
  | _ + 1, [] => none
  | fuel + 1, c :: rest =>
    if c = '\x7b' then parseJsonMembers fuel (skipJsonWs rest) []
    else if c = '[' then parseJsonItems fuel (skipJsonWs rest) []
    else if c = '"' then
      match parseJsonString rest with
      | some (s, r) => some (Json.str s, r)
      | none => none
    else if c = 't' then
      if [ 'r', 'u', 'e'].isPrefixOf rest then some (Json.bool true, rest.drop 3) else none
    else if c = 'f' then
      if [ 'a', 'l', 's', 'e'].isPrefixOf rest then some (Json.bool false, rest.drop 4) else none
    else if c = 'n' then
      if [ 'u', 'l', 'l'].isPrefixOf rest then some (Json.null, rest.drop 3) else none
    else if c = 'N' then
      if [ 'a', 'N'].isPrefixOf rest then some (Json.nan, rest.drop 2) else none
    else if c = 'I' then
      if [ 'n', 'f', 'i', 'n', 'i', 't', 'y'].isPrefixOf rest then some (Json.inf, rest.drop 7) else none
    else if c = '-' ∨ c.isDigit then
      match parseJsonNumber (c :: rest) with
      | some x => some x
      | none =>
        if c = '-' ∧ [ 'I', 'n', 'f', 'i', 'n', 'i', 't', 'y'].isPrefixOf rest then
          some (Json.ninf, rest.drop 8)
        else none
    else none

/-- Parse the members of a JSON object.  Called just after `{` (with
whitespace skipped, `acc = []`) and after each `,` (whitespace
skipped).  An empty object is only accepted in the first position;
after a comma a member is required (no trailing commas). -/
def parseJsonMembers : Nat → List Char → List (List Char × Json) → Option (Json × List Char)
  | 0, _, _ => none
  | _ + 1, [], _ => none
  | fuel + 1, c :: rest, acc =>
    if c = '\x7d' ∧ acc.isEmpty then some (Json.obj [], rest)
    else if c = '"' then
      match parseJsonString rest with
      | some (key, r1) =>
        match skipJsonWs r1 with
        | ':' :: r2 =>
          match parseJsonValue fuel (skipJsonWs r2) with
          | some (v, r3) =>
            match skipJsonWs r3 with
            | '\x7d' :: r4 => some (Json.obj (acc ++ [(key, v)]), r4)
            | ',' :: r4 => parseJsonMembers fuel (skipJsonWs r4) (acc ++ [(key, v)])
            | _ => none
          | none => none
        | _ => none
      | none => none
    else none

/-- Parse the items of a JSON array.  Called just after `[` (with
whitespace skipped, `acc = []`) and after each `,`. -/
def parseJsonItems : Nat → List Char → List Json → Option (Json × List Char)
  | 0, _, _ => none
  | _ + 1, [], _ => none
  | fuel + 1, c :: rest, acc =>
    if c = ']' ∧ acc.isEmpty then some (Json.arr [], rest)
    else
      match parseJsonValue fuel (c :: rest) with
      | some (v, r1) =>
        match skipJsonWs r1 with
        | ']' :: r2 => some (Json.arr (acc ++ [v]), r2)
        | ',' :: r2 => parseJsonItems fuel (skipJsonWs r2) (acc ++ [v])
        | _ => none
      | none => none

end

/-- Python `json.loads` on a character list: skip surrounding
whitespace, decode one value, and require that nothing but whitespace
remains (`Extra data` otherwise).  Returns `none` where `json.loads`
raises `JSONDecodeError`. -/
def jsonLoads (s : List Char) : Option Json :=
  let t := skipJsonWs s
  match parseJsonValue (t.length + 1) t with
  | some (v, rest) => if skipJsonWs rest = [] then some v else none
  | none => none

/-!
## `_extract_json_from_text` (`app/ai/parsing.py`)

Four strategies, first success wins: direct parse of the stripped
text; markdown code fences; a string-aware balanced-brace scan for an
object containing a `"score"` key; a flat-object regex fallback.  The
two regex-based strategies (`re.search`) are modelled by direct
scanning functions implementing the leftmost-match semantics of the
concrete patterns used by the source.  `\s` and `\d` are modelled as
their ASCII character classes. -/

/-- The whitespace class shared by Python's `str.strip()`, `str`
regex `\s` and `int(str)` stripping (CPython's `Py_UNICODE_ISSPACE`):
the ASCII whitespace `\t\n\v\f\r` and space, the information
separators `\x1c`-`\x1f`, next line `\x85`, no-break space `\xa0`,
Ogham space mark, the Unicode space separators U+2000-U+200A,
line/paragraph separators, narrow no-break space, medium mathematical
space and ideographic space. -/
def pyWs (c : Char) : Bool :=
  c = ' ' || c = '\t' || c = '\n' || c = '\r' || c = '\x0b' || c = '\x0c' ||
  (28 ≤ c.toNat && c.toNat ≤ 31) || c.toNat = 133 || c.toNat = 160 ||
  c.toNat = 0x1680 || (0x2000 ≤ c.toNat && c.toNat ≤ 0x200a) ||
  c.toNat = 0x2028 || c.toNat = 0x2029 || c.toNat = 0x202f ||
  c.toNat = 0x205f || c.toNat = 0x3000

/-- Python `str.strip()`: remove leading and trailing whitespace. -/
def pyStrip (s : List Char) : List Char :=
  ((s.dropWhile pyWs).reverse.dropWhile pyWs).reverse

/-- Python `needle in haystack` substring test. -/
def containsSub (needle : List Char) : List Char → Bool
  | [] => needle.isEmpty
  | c :: rest => needle.isPrefixOf (c :: rest) || containsSub needle rest

/-- Scan for the end of the lazy group in the fence patterns
(strategy 2).  The group is of the form "open brace, any characters
(lazily), close brace"; laziness means the group ends at the first
close brace that is followed by optional whitespace and three
backticks.  `acc` holds the group scanned so far, reversed. -/
def fenceGroupEnd (acc : List Char) : List Char → Option (List Char)
  | [] => none
  | c :: rest =>
    if c = '\x7d' ∧ [ '`', '`', '`'].isPrefixOf (rest.dropWhile pyWs) then
      some (('\x7d' :: acc).reverse)
    else fenceGroupEnd (c :: acc) rest

/-- Try to match a fence pattern of strategy 2 starting exactly at
`s`: the literal `marker`, then greedy whitespace, then the lazy
braced group, then whitespace and three closing backticks.  Returns
the captured group. -/
def fenceMatchAt (marker : List Char) (s : List Char) : Option (List Char) :=
  if marker.isPrefixOf s then
    match (s.drop marker.length).dropWhile pyWs with
    | '\x7b' :: rest => fenceGroupEnd ['\x7b'] rest
    | _ => none
  else none

/-- Model of `re.search` for the two fence patterns of strategy 2:
try a match at every position, leftmost first. -/
def reSearchFence (marker : List Char) : List Char → Option (List Char)
  | [] => none
  | c :: rest =>
    match fenceMatchAt marker (c :: rest) with
    | some g => some g
    | none => reSearchFence marker rest

/-- Strategy 2 of `_extract_json_from_text`: for each of the two code
block patterns in order, take its first match and try to decode the
captured group; on decode failure move on to the next pattern. -/
def extractStrategy2 (s : List Char) : Option Json :=
  let tryPat (marker : List Char) : Option Json :=
    match reSearchFence marker s with
    | some g => jsonLoads g
    | none => none
  match tryPat ('`' :: '`' :: '`' :: [ 'j', 's', 'o', 'n']) with
  | some j => some j
  | none => tryPat [ '`', '`', '`']

/-- The candidate check of `find_balanced_json`: the candidate must
contain the quoted key score, and, after removing spaces and newline
characters, the quoted key immediately followed by a colon. -/
def scoreKeyCheck (cand : List Char) : Bool :=
  containsSub [ '"', 's', 'c', 'o', 'r', 'e', '"'] cand &&
    containsSub [ '"', 's', 'c', 'o', 'r', 'e', '"', ':']
      (cand.filter (fun c => ¬ (c = ' ' ∨ c = '\n')))

/-- The inner loop of `find_balanced_json` (strategy 3): scan from an
opening brace with a depth counter that is string-aware (quotes toggle
string mode, a backslash inside a string escapes the next character);
return the candidate span when the depth returns to zero.  `acc` holds
the span scanned so far, reversed. -/
def scanBalanced : List Char → Nat → Bool → Bool → List Char → Option (List Char)
  | [], _, _, _, _ => none
  | c :: rest, depth, inStr, esc, acc =>
    if esc then scanBalanced rest depth inStr false (c :: acc)
    else if c = '\\' ∧ inStr then scanBalanced rest depth inStr true (c :: acc)
    else if c = '"' then scanBalanced rest depth (!inStr) false (c :: acc)
    else if ¬ inStr ∧ c = '\x7b' then scanBalanced rest (depth + 1) inStr false (c :: acc)
    else if ¬ inStr ∧ c = '\x7d' then
      if depth = 1 then some ((c :: acc).reverse)
      else scanBalanced rest (depth - 1) inStr false (c :: acc)
    else scanBalanced rest depth inStr false (c :: acc)

/-- `find_balanced_json` from `_extract_json_from_text`: starting at
each opening brace in turn, scan for a balanced span; return the first
balanced span that passes the score-key check.  A span that does not
balance, or balances but fails the check, moves the start to the next
opening brace. -/
def find_balanced_json : List Char → Option (List Char)
  | [] => none
  | c :: rest =>
    if c = '\x7b' then
      match scanBalanced (c :: rest) 0 false false [] with
      | some cand => if scoreKeyCheck cand then some cand else find_balanced_json rest
      | none => find_balanced_json rest
    else find_balanced_json rest

/-- Character class of the regex fragment excluding braces, used by
the strategy 4 pattern. -/
def nonBrace (c : Char) : Bool := ¬ (c = '\x7b' ∨ c = '\x7d')

/-- Does a brace-free run contain the quoted key score followed by
optional whitespace, a colon, optional whitespace and a digit (the
mandatory part of the strategy 4 pattern)? -/
def scoreColonDigit : List Char → Bool
  | [] => false
  | c :: rest =>
    ([ '"', 's', 'c', 'o', 'r', 'e', '"'].isPrefixOf (c :: rest) &&
      (match ((c :: rest).drop 7).dropWhile pyWs with
       | ':' :: r2 =>
         (match r2.dropWhile pyWs with
          | d :: _ => d.isDigit
          | [] => false)
       | _ => false)) ||
    scoreColonDigit rest

/-- Model of `re.search` for the strategy 4 fallback pattern (a flat
object: open brace, no inner braces, the quoted score key with an
integer value somewhere inside, close brace), leftmost match first. -/
def reSearchFlat : List Char → Option (List Char)
  | [] => none
  | c :: rest =>
    if c = '\x7b' then
      let run := rest.takeWhile nonBrace
      match rest.drop run.length with
      | '\x7d' :: _ =>
        if scoreColonDigit run then some ('\x7b' :: (run ++ ['\x7d'])) else reSearchFlat rest
      | _ => reSearchFlat rest
    else reSearchFlat rest

/-- Strategy 1 of `_extract_json_from_text`: when the stripped text
starts with an opening brace, attempt a direct decode of it. -/
def extractStrategy1 (stripped : List Char) : Option Json :=
  if stripped.head? = some '\x7b' then jsonLoads stripped else none

/-- Strategy 3 of `_extract_json_from_text`: decode the balanced span
found by `find_balanced_json`, if any. -/
def extractStrategy3 (s : List Char) : Option Json :=
  match find_balanced_json s with
  | some cand => jsonLoads cand
  | none => none

/-- Strategy 4 of `_extract_json_from_text`: decode the flat-object
regex match, if any. -/
def extractStrategy4 (s : List Char) : Option Json :=
  match reSearchFlat s with
  | some m => jsonLoads m
  | none => none

/-- `_extract_json_from_text` from `app/ai/parsing.py`: the four
extraction strategies in order, each falling through to the next when
it finds no match or its candidate fails to decode. -/
def _extract_json_from_text (text : String) : Option Json :=
  let s := text.toList
  match extractStrategy1 (pyStrip s) with
  | some j => some j
  | none =>
    match extractStrategy2 s with
    | some j => some j
    | none =>
      match extractStrategy3 s with
      | some j => some j
      | none => extractStrategy4 s

/-!
## `parse_ai_response` (`app/ai/parsing.py`)

The conversions the source applies to decoded JSON fields are Python
library calls; they are embedded here with their success/failure
behavior: `int(x)` (`pyInt`, `.error` = raises, tagged with the
exception class since only `ValueError` / `TypeError` are caught by
the local abuse-score handler), `IssueType(x)` (total:
a `ValueError` is caught by the source and defaults to `none`), and
the pydantic v2 validation of the `feedback` field (a non-string
feedback raises `ValidationError` at construction).  Exceptions that
escape to the source's final `except Exception` handler produce a
generic processing-error result whose feedback embeds `str(e)`;
`str(e)` is abstracted as a short description, since no claim depends
on its exact text.  The source's `except json.JSONDecodeError` handler
is unreachable (`_extract_json_from_text` catches every decode error
internally) and is not modelled. -/

/-- A message pushed over the live-update channel
(`app/websocket/messages.py`). -/
inductive WsMessage where
  | status (submission_id : String) (message : String)
  | completed (submission_id : String) (score : Int) (feedback : String)
  | error (submission_id : String) (err : String)
  deriving DecidableEq, Repr

/-- `SubmissionProgress` dataclass from `app/websocket/progress.py`. -/
structure SubmissionProgress where
  submission_id : String
  is_connected : Bool := false
  current_status : String := "Przesyłanie..."
  thinking_buffer : String := ""
  completed : Bool := false
  score : Option Int := none
  feedback : Option String := none
  error : Option String := none
  created_at : Int
  deriving DecidableEq, Repr

/-- A freshly constructed `SubmissionProgress(submission_id=id)` with
`created_at = now`. -/
def freshProgress (id : String) (now : Int) : SubmissionProgress :=
  { submission_id := id, created_at := now }

/-- The hub's table: submission id to progress entry. -/
abbrev Hub := List (String × SubmissionProgress)

/-- Dict lookup. -/
def hubFind (h : Hub) (id : String) : Option SubmissionProgress :=
  (List.find? (fun kv => kv.1 == id) h).map (·.2)

/-- Dict update: replace the entry for `id` if present, else append. -/
def hubSet (h : Hub) (id : String) (p : SubmissionProgress) : Hub :=
  match h with
  | [] => [(id, p)]
  | kv :: rest => if kv.1 = id then (id, p) :: rest else kv :: hubSet rest id p

/-- `ProgressManager.register`: create the entry if absent, mark it
connected, and replay the current status line plus (when terminal) the
cached final payload to the newly connected client.  All three replay
gates are Python truthiness tests (`if progress.current_status:`,
`if progress.error:`), so an empty status line is not replayed and an
error of `None` or the empty string falls to the completed message. -/
def register (h : Hub) (id : String) (now : Int) : Hub × List WsMessage :=
  let p0 := (hubFind h id).getD (freshProgress id now)
  let p := { p0 with is_connected := true }
  let msgs :=
    (if p.current_status ≠ "" then [WsMessage.status id p.current_status] else []) ++
    (if p.completed then
      (if p.error.getD "" ≠ "" then [WsMessage.error id (p.error.getD "")]
       else [WsMessage.completed id (p.score.getD 0) (p.feedback.getD "")])
     else [])
  (hubSet h id p, msgs)

/-- `ProgressManager.send_status`: create the entry if absent, record
the new current status, and broadcast it to the connected client if
any. -/
def send_status (h : Hub) (id msg : String) (now : Int) : Hub × List WsMessage :=
  let p0 := (hubFind h id).getD (freshProgress id now)
  let p := { p0 with current_status := msg }
  (hubSet h id p, if p.is_connected then [WsMessage.status id msg] else [])

/-- One attempted match of the heading regex (two stars, one or more
non-star characters, two stars) at the start of the input; returns the
captured group and the input after the match. -/
def headingAt (s : List Char) : Option (List Char × List Char) :=
  match s with
  | '*' :: '*' :: t =>
    let inner := t.takeWhile (fun c => ¬ c = '*')
    if inner ≠ [] ∧ [ '*', '*'].isPrefixOf (t.drop inner.length) then
      some (inner, (t.drop inner.length).drop 2)
    else none
  | _ => none

/-- Worker for `findHeadings`; the fuel only serves termination and
never runs out when initialized with the input length (each step
consumes at least one character). -/
def findHeadingsAux : Nat → List Char → List (List Char)
  | 0, _ => []
  | _ + 1, [] => []
  | fuel + 1, c :: rest =>
    match headingAt (c :: rest) with
    | some (hd, rem) => hd :: findHeadingsAux fuel rem
    | none => findHeadingsAux fuel rest

/-- `HEADING_PATTERN.findall`: all non-overlapping matches of the
heading regex, left to right. -/
def findHeadings (s : List Char) : List (List Char) :=
  findHeadingsAux s.length s

/-- `extract_latest_heading` from `app/websocket/progress.py`: the
last heading match, stripped. -/
def extract_latest_heading (text : String) : Option String :=
  ((findHeadings text.toList).getLast?).map (fun l => String.mk (pyStrip l))

/-- `ProgressManager.send_thinking`: on a missing id this does nothing
at all; otherwise it appends the chunk to the thinking buffer and, if
the latest heading is non-empty and changed, stores the translated
heading as the current status and broadcasts it.  `translate` models
`translate_to_polish` (an external call). -/
def send_thinking (h : Hub) (id : String) (chunk : String)
    (translate : String → String) : Hub × List WsMessage :=
  match hubFind h id with
  | none => (h, [])
  | some p =>
    let buf := p.thinking_buffer ++ chunk
    let oldHeading := extract_latest_heading p.thinking_buffer
    let newHeading := extract_latest_heading buf
    match newHeading with
    | none => (hubSet h id { p with thinking_buffer := buf }, [])
    | some s =>
      if s ≠ "" ∧ oldHeading ≠ some s then
        let tr := translate s
        (hubSet h id { p with thinking_buffer := buf, current_status := tr },
         if p.is_connected then [WsMessage.status id tr] else [])
      else (hubSet h id { p with thinking_buffer := buf }, [])

/-- `ProgressManager.send_completed`: on an existing id, mark terminal
and cache the final payload; broadcast the completion message. -/
def send_completed (h : Hub) (id : String) (score : Int) (feedback : String) :
    Hub × List WsMessage :=
  let h1 :=
    match hubFind h id with
    | none => h
    | some p =>
      hubSet h id { p with completed := true, score := some score, feedback := some feedback }
  (h1, match hubFind h1 id with
       | some p => if p.is_connected then [WsMessage.completed id score feedback] else []
       | none => [])

/-- `ProgressManager.send_error`: on an existing id, mark terminal and
cache the error; broadcast the error message. -/
def send_error (h : Hub) (id : String) (err : String) : Hub × List WsMessage :=
  let h1 :=
    match hubFind h id with
    | none => h
    | some p => hubSet h id { p with completed := true, error := some err }
  (h1, match hubFind h1 id with
       | some p => if p.is_connected then [WsMessage.error id err] else []
       | none => [])

/-- `_CLEANUP_TTL_SECONDS` from `app/websocket/progress.py`. -/
def _CLEANUP_TTL_SECONDS : Int := 600

/-- `ProgressManager.cleanup_stale`: remove every entry that is
completed and disconnected, or whose age exceeds the TTL; return the
new table and the number removed. -/
def cleanup_stale (h : Hub) (now : Int) : Hub × Nat :=
  let keep := h.filter (fun kv =>
    ¬ ((kv.2.completed ∧ ¬ kv.2.is_connected) ∨ now - kv.2.created_at > _CLEANUP_TTL_SECONDS))
  (keep, h.length - keep.length)

/-!
## Admission gate (`app/main.py`, `submit_solution`)

The rate-limit section of the `submit_solution` endpoint together
with `_calculate_rate_limit_headers` and `_calculate_retry_after`.
Timestamps are integer seconds (the source uses timezone-aware
datetimes and truncates the retry-after float with `int()`, which on
whole seconds is exact).  The numeric values of the denial response
are collected in `DenialResponse`: the three rate-limit headers, the
`Retry-After` header, and the ceiling embedded in the error text of
the per-user branch. -/

/-- The numeric values of the `X-RateLimit-*` headers built by
`_calculate_rate_limit_headers`. -/
structure RateLimitHeaders where
  limit : Int
  remaining : Int
  reset : Int
  deriving DecidableEq, Repr

/-- `_calculate_rate_limit_headers` from `app/main.py`. -/
def _calculate_rate_limit_headers (limit : Int) (current_count : Int)
    (oldest_timestamp : Option Int) (now : Int) (window_hours : Int := 24) :
    RateLimitHeaders :=
  { limit := limit
    remaining := max 0 (limit - current_count)
    reset :=
      match oldest_timestamp with
      | some t => t + window_hours * 3600
      | none => now + window_hours * 3600 }

/-- `_calculate_retry_after` from `app/main.py`: seconds until the
oldest request leaves the rolling window, floored at 1. -/
def _calculate_retry_after (oldest_timestamp : Option Int) (now : Int)
    (window_hours : Int := 24) : Int :=
  let reset_time :=
    match oldest_timestamp with
    | some t => t + window_hours * 3600
    | none => now + window_hours * 3600
  max 1 (reset_time - now)

/-- The data of a 429 denial response of `submit_solution`: rate-limit
headers, `Retry-After`, and the ceiling embedded in the error text
(only the per-user branch interpolates a number into its message). -/
structure DenialResponse where
  errorLimit : Option Int
  headers : RateLimitHeaders
  retryAfter : Int
  deriving DecidableEq, Repr

/-- The numbers a denial response carries (in its headers or its error
text). -/
def DenialResponse.carries (d : DenialResponse) (n : Int) : Prop :=
  n = d.headers.limit ∨ n = d.headers.remaining ∨ n = d.headers.reset ∨
    n = d.retryAfter ∨ d.errorLimit = some n

instance (d : DenialResponse) (n : Int) : Decidable (d.carries n) := by
  unfold DenialResponse.carries
  infer_instance

/-- Outcome of the admission check. -/
inductive AdmissionDecision where
  | allowed
  | denied (d : DenialResponse)
  deriving DecidableEq, Repr

/-- The inputs the rate-limit section of `submit_solution` reads: the
allow-list verdict, the two rolling-window counters with their oldest
timestamps (from `get_user_rate_limit_info` /
`get_global_rate_limit_info`), the configured ceilings, and the
clock. -/
structure AdmissionInput where
  is_allowlisted : Bool
  user_count : Int
  user_oldest : Option Int
  global_count : Int
  global_oldest : Option Int
  user_limit : Int
  global_limit : Int
  now : Int
  deriving DecidableEq, Repr

/-- The rate-limit section of `submit_solution` (`app/main.py`): an
allow-listed user bypasses both checks; otherwise the per-user ceiling
is checked first, then the global ceiling; each denial returns a 429
with the matching headers and retry-after. -/
def submit_admission (i : AdmissionInput) : AdmissionDecision :=
  let user_headers := _calculate_rate_limit_headers i.user_limit i.user_count
    i.user_oldest i.now 24
  if ¬ i.is_allowlisted then
    if i.user_count ≥ i.user_limit then
      .denied { errorLimit := some i.user_limit, headers := user_headers
                retryAfter := _calculate_retry_after i.user_oldest i.now 24 }
    else if i.global_count ≥ i.global_limit then
      .denied { errorLimit := none
                headers := _calculate_rate_limit_headers i.global_limit i.global_count
                  i.global_oldest i.now 24
                retryAfter := _calculate_retry_after i.global_oldest i.now 24 }
    else .allowed
  else .allowed

/-- The persistent effects of one `submit_solution` call that the
admission claim talks about: whether a submission record was created
and whether any uploaded file was stored. -/
structure SubmitEffects where
  recordCreated : Bool
  filesSaved : Bool
  deriving DecidableEq, Repr

/-- No record, no files. -/
def noSubmitEffects : SubmitEffects := { recordCreated := false, filesSaved := false }

/-- Control flow of `submit_solution` around the admission gate: a
denial returns immediately (before parameter validation, file saving
and record creation); only the allowed path runs the rest of the
endpoint, abstracted as `proceed`. -/
def submit_solution_step (i : AdmissionInput) (proceed : Unit → SubmitEffects) :
    AdmissionDecision × SubmitEffects :=
  match submit_admission i with
  | .denied d => (.denied d, noSubmitEffects)
  | .allowed => (.allowed, proceed ())

/-!
## Background orchestrator (`app/websocket/handler.py`)

`process_submission_background` drives one submission to a terminal
persisted state.  The external world is passed in as an
`OrchestratorEnv`: whether the task PDF resolves, and the outcome of
`provider.analyze_solution_stream` (a result, an `AIProviderError`
with its user-safe message, or an arbitrary other exception with its
`str(e)`).  Database writes are modelled as updates of a
`SubmissionRecord`; progress-hub sends as the terminal hub message
emitted.  Status messages and thinking chunks are hub traffic already
modelled by `send_status` / `send_thinking` and are not repeated
here. -/

/-- `SubmissionStatus` from `app/db/models.py`. -/
inductive SubmissionStatus where
  | pending
  | processing
  | completed
  | failed
  deriving DecidableEq, Repr

/-- The persisted fields of a submission that
`process_submission_background` writes. -/
structure SubmissionRecord where
  status : SubmissionStatus
  score : Option Int := none
  feedback : Option String := none
  error_message : Option String := none
  issue_type : Option IssueType := none
  abuse_score : Option Int := none
  deriving DecidableEq, Repr

/-- Outcome of the `analyze_solution_stream` call. -/
inductive InferOutcome where
  | ok (r : SubmissionResult)
  | providerError (msg : String)
  | otherError (msg : String)
  deriving DecidableEq, Repr

/-- The environment one run of `process_submission_background`
observes. -/
structure OrchestratorEnv where
  taskPdfExists : Bool
  infer : InferOutcome
  deriving DecidableEq, Repr

/-- The terminal hub message the orchestrator pushes. -/
inductive TerminalPush where
  | completedMsg (score : Int) (feedback : String)
  | errorMsg (err : String)
  deriving DecidableEq, Repr

/-- `process_submission_background` from `app/websocket/handler.py`,
as a function from the initial record and environment to the final
persisted record and the terminal hub push.  The try-body raises
`AIProviderError` when the task PDF is missing, then calls the
provider; on success it persists COMPLETED with all result fields and
pushes the completion; the `except AIProviderError` handler persists
FAILED with `str(e)` and pushes it; the catch-all handler persists
FAILED with `str(e)` but pushes a fixed generic message. -/
def process_submission_background (r0 : SubmissionRecord) (env : OrchestratorEnv) :
    SubmissionRecord × TerminalPush :=
  -- update_status(submission_id, PROCESSING)
  let r1 := { r0 with status := SubmissionStatus.processing }
  if ¬ env.taskPdfExists then
    -- raise AIProviderError("Nie znaleziono pliku z zadaniami")
    ({ r1 with status := .failed, error_message := some "Nie znaleziono pliku z zadaniami" },
     .errorMsg "Nie znaleziono pliku z zadaniami")
  else
    match env.infer with
    | .ok res =>
      ({ r1 with status := .completed, score := some res.score,
                 feedback := some res.feedback, issue_type := some res.issue_type,
                 abuse_score := some res.abuse_score },
       .completedMsg res.score res.feedback)
    | .providerError msg =>
      ({ r1 with status := .failed, error_message := some msg }, .errorMsg msg)
    | .otherError msg =>
      ({ r1 with status := .failed, error_message := some msg },
       .errorMsg "Przepraszamy, coś poszło nie tak. Spróbuj ponownie za chwilę.")

/-!
## Remote-file cache (`app/ai/providers/gemini.py`)

`_file_cache` maps a local path to a `CachedFile`; `_check_cached_file`
validates an entry (TTL, content hash, remote liveness) and
`_upload_file` consults it before uploading.  The external world is a
`RemoteEnv`: the current content hash of each local path (a changed
file changes this function between calls), whether a remote file name
still exists on the backend, and the clock.  `_upload_file` returns
the new cache, the remote name handed back, and the number of upload
calls it issued (0 or 1). -/

/-- `CachedFile` dataclass from `app/ai/providers/gemini.py`. -/
structure CachedFile where
  gemini_name : String
  file_hash : String
  cached_at : Int
  deriving DecidableEq, Repr

/-- `_CACHE_TTL_SECONDS` from `app/ai/providers/gemini.py`. -/
def _CACHE_TTL_SECONDS : Int := 24 * 60 * 60

/-- The `_file_cache` table: local path to cached remote reference. -/
abbrev FileCache := List (String × CachedFile)

/-- Dict lookup in the file cache. -/
def cacheFind (c : FileCache) (k : String) : Option CachedFile :=
  (List.find? (fun kv => kv.1 == k) c).map (·.2)

/-- Dict update in the file cache. -/
def cacheSet (c : FileCache) (k : String) (v : CachedFile) : FileCache :=
  match c with
  | [] => [(k, v)]
  | kv :: rest => if kv.1 = k then (k, v) :: rest else kv :: cacheSet rest k v

/-- `del _file_cache[key]`. -/
def cacheErase (c : FileCache) (k : String) : FileCache :=
  c.filter (fun kv => ¬ kv.1 = k)

/-- The external world of the cache: content hash per local path,
remote liveness per remote name, clock. -/
structure RemoteEnv where
  fileHash : String → String
  remoteAlive : String → Bool
  now : Int

/-- `GeminiProvider._check_cached_file`: return the cached remote name
when the entry is within TTL, the recomputed hash matches and the
remote probe succeeds; otherwise evict the entry (if any) and return
nothing. -/
def _check_cached_file (env : RemoteEnv) (cache : FileCache) (path : String) :
    FileCache × Option String :=
  match cacheFind cache path with
  | none => (cache, none)
  | some cached =>
    if env.now - cached.cached_at > _CACHE_TTL_SECONDS then (cacheErase cache path, none)
    else if ¬ env.fileHash path = cached.file_hash then (cacheErase cache path, none)
    else if env.remoteAlive cached.gemini_name then (cache, some cached.gemini_name)
    else (cacheErase cache path, none)

/-- `GeminiProvider._upload_file`: on a cache hit return the cached
reference with no upload; otherwise upload (the fresh remote name is
supplied by the environment as `freshName`) and, when caching is
enabled, store the new reference with the recomputed hash and the
current time. -/
def _upload_file (env : RemoteEnv) (cache : FileCache) (path : String)
    (use_cache : Bool) (freshName : String) : FileCache × String × Nat :=
  if use_cache then
    match _check_cached_file env cache path with
    | (c1, some name) => (c1, name, 0)
    | (c1, none) =>
      (cacheSet c1 path
        { gemini_name := freshName, file_hash := env.fileHash path, cached_at := env.now },
       freshName, 1)
  else (cache, freshName, 1)

/-!
## Embedded score/feedback objects (claim C7)

The canonical textual rendering of the object with a `score` and a
`feedback` field, for an integer given by an optional sign and its
decimal digits and a feedback string given by its characters. -/

/-- The characters of the embedded JSON object: open brace, quoted
score key, colon, space, optional minus, the digits, comma, space,
quoted feedback key, colon, space, the quoted feedback, close
brace. -/
def renderScoreFeedback (neg : Bool) (ds F : List Char) : List Char :=
  '\x7b' :: '"' :: 's' :: 'c' :: 'o' :: 'r' :: 'e' :: '"' :: ':' :: ' ' ::
    ((if neg then ['-'] else []) ++ ds ++
      (',' :: ' ' :: '"' :: 'f' :: 'e' :: 'e' :: 'd' :: 'b' :: 'a' :: 'c' :: 'k' ::
        '"' :: ':' :: ' ' :: '"' :: (F ++ ['"', '\x7d'])))

/-- The integer denoted by an optional sign and decimal digits. -/
def intOfDigits (neg : Bool) (ds : List Char) : Int :=
  if neg then -(Int.ofNat (digitsToNat 0 ds)) else Int.ofNat (digitsToNat 0 ds)

/-- The decoded value of the embedded object. -/
def targetJson (neg : Bool) (ds F : List Char) : Json :=
  Json.obj [("score".toList, Json.num (intOfDigits neg ds)),
    ("feedback".toList, Json.str F)]

/-- A feedback character that needs no JSON escaping and cannot open a
markdown fence: not a quote, not a backslash, not a backtick, not a
control character.  Brace characters are allowed. -/
def cleanFeedbackChar (c : Char) : Bool :=
  ¬ c = '"' ∧ ¬ c = '\\' ∧ ¬ c = '`' ∧ ¬ c.toNat < 32

/-- A concrete terminal hub entry with the default current status
line. -/
def cexTerminalProgress : SubmissionProgress :=
  { submission_id := "sub1", is_connected := false, current_status := "Finalizowanie..."
    thinking_buffer := "", completed := true, score := some 5, feedback := some "ok"
    error := none, created_at := 0 }

/-- A concrete over-limit, non-allow-listed admission state: ceiling
3, current count 5. -/
def cexAdmissionInput : AdmissionInput :=
  { is_allowlisted := false, user_count := 5, user_oldest := some 1000
    global_count := 5, global_oldest := some 1000, user_limit := 3
    global_limit := 500, now := 2000 }

/-- The denial `submit_solution` produces on `cexAdmissionInput`. -/
def cexDenial : DenialResponse :=
  { errorLimit := some 3
    headers := { limit := 3, remaining := 0, reset := 87400 }
    retryAfter := 85400 }

/-- Initial record of a freshly admitted submission. -/
def initRecord : SubmissionRecord := { status := .pending }

/-- Environment in which the inference call returns a result. -/
def okEnv : OrchestratorEnv :=
  { taskPdfExists := true
    infer := .ok { score := 5, feedback := "dobrze", issue_type := .none, abuse_score := 0 } }

/-- A cache entry whose age is exactly the TTL, with matching hash and
a live remote reference. -/
def cexFileCache : FileCache :=
  [("task.pdf", { gemini_name := "files/abc", file_hash := "h1", cached_at := 0 })]

/-- Clock at exactly TTL seconds after the entry was cached. -/
def cexCacheEnv : RemoteEnv :=
  { fileHash := fun _ => "h1", remoteAlive := fun _ => true, now := 86400 }

/-- Second-call environment with the file content unchanged. -/
def cexCacheEnv2 : RemoteEnv :=
  { fileHash := fun _ => "h1", remoteAlive := fun _ => true, now := 90000 }

/-- Second-call environment after the file content was mutated. -/
def cexCacheEnv3 : RemoteEnv :=
  { fileHash := fun _ => "h2", remoteAlive := fun _ => true, now := 90000 }

/-- A text embedding two score/feedback objects in sequence: the
decimal-0 object with feedback x, a space, then the decimal-5 object
with feedback y. -/
def cexEmbedText : String :=
  String.mk ((renderScoreFeedback false [ '0'] [ 'x'] ++ [ ' ']) ++
    renderScoreFeedback false [ '5'] [ 'y'] ++ [])

end OmjValidator

namespace OmjValidator

/-- C1: `normalize_omj_score` follows the stated thresholds for `etap1`
(≤0→0, ≤2→1, else 3) and for every other stage (≤1→0, ≤3→2, ≤5→5,
else 6), and its result always lies in the stage's valid score set. -/
theorem normalize_omj_score_spec (s : Int) (etap : String) :
    normalize_omj_score s etap =
      (if etap = "etap1" then
        (if s ≤ 0 then 0 else if s ≤ 2 then 1 else 3)
      else
        (if s ≤ 1 then 0 else if s ≤ 3 then 2 else if s ≤ 5 then 5 else 6)) ∧
    (if etap = "etap1" then normalize_omj_score s etap ∈ VALID_SCORES_ETAP1
     else normalize_omj_score s etap ∈ VALID_SCORES_ETAP2) := by
  unfold normalize_omj_score VALID_SCORES_ETAP1 VALID_SCORES_ETAP2
  by_cases h : etap = "etap1" <;>
    simp only [h, if_true, if_false, List.mem_cons, List.mem_singleton,
      List.not_mem_nil, or_false] <;>
    constructor <;>
    · split_ifs <;> omega

/-- Updating the hub table then looking the same id up yields the
updated entry. -/
theorem hubFind_hubSet (h : Hub) (id : String) (p : SubmissionProgress) :
    hubFind (hubSet h id p) id = some p := by
  induction h with
  | nil => simp [hubFind, hubSet]
  | cons kv rest ih =>
    by_cases hk : kv.1 = id
    · simp [hubFind, hubSet, hk, List.find?]
    · simpa [hubFind, hubSet, hk, List.find?_cons_of_neg, ih] using ih

/-- C6 counterexample: a subscriber connecting to an already-terminal
entry does not receive exactly the terminal message — `register`
first replays the current status line, so two messages are sent. -/
theorem register_replay_cex :
    cexTerminalProgress.completed = true ∧
    (register [("sub1", cexTerminalProgress)] "sub1" 10).2 ≠
      [WsMessage.completed "sub1" 5 "ok"] ∧
    (register [("sub1", cexTerminalProgress)] "sub1" 10).2 =
      [WsMessage.status "sub1" "Finalizowanie...", WsMessage.completed "sub1" 5 "ok"] := by
  refine ⟨rfl, ?_, rfl⟩
  decide

/-- C6 (amended): a subscriber connecting to an already-terminal entry
immediately receives the replayed current status line when that line
is non-empty, followed by exactly one terminal message — the cached
error when it is a non-empty string, otherwise the completed message
with the cached score and feedback — and no other messages. -/
theorem register_replay_terminal (h : Hub) (id : String) (now : Int)
    (p : SubmissionProgress)
    (hp : hubFind h id = some p)
    (hc : p.completed = true) :
    (register h id now).2 =
      (if p.current_status = "" then [] else [WsMessage.status id p.current_status]) ++
      [if p.error.getD "" = "" then
        WsMessage.completed id (p.score.getD 0) (p.feedback.getD "")
       else WsMessage.error id (p.error.getD "")] := by
  unfold register
  rw [hp]
  simp only [Option.getD_some, hc, if_true, ne_eq]
  by_cases hs : p.current_status = "" <;>
    by_cases he : p.error.getD "" = "" <;>
      simp [hs, he]

/-- Witness for the amended C6 at the concrete terminal entry. -/
theorem register_replay_terminal_witness :
    (register [("sub1", cexTerminalProgress)] "sub1" 10).2 =
      (if cexTerminalProgress.current_status = "" then []
       else [WsMessage.status "sub1" cexTerminalProgress.current_status]) ++
      [if cexTerminalProgress.error.getD "" = "" then
        WsMessage.completed "sub1" (cexTerminalProgress.score.getD 0)
          (cexTerminalProgress.feedback.getD "")
       else WsMessage.error "sub1" (cexTerminalProgress.error.getD "")] :=
  register_replay_terminal [("sub1", cexTerminalProgress)] "sub1" 10
    cexTerminalProgress rfl rfl

/-- C9: `cleanup_stale` keeps exactly the entries that are neither
(terminal and unsubscribed) nor older than the 600-second max age; an
entry is removed iff it is terminal with no connected subscriber, or
its age exceeds the max age. -/
theorem cleanup_stale_spec (h : Hub) (now : Int) (kv : String × SubmissionProgress) :
    kv ∈ (cleanup_stale h now).1 ↔
      kv ∈ h ∧ ¬ ((kv.2.completed = true ∧ kv.2.is_connected = false) ∨
        now - kv.2.created_at > _CLEANUP_TTL_SECONDS) := by
  simp only [cleanup_stale, List.mem_filter, decide_eq_true_eq, Bool.not_eq_true',
    decide_eq_false_iff_not, Bool.not_eq_true]

/-- C10: a reasoning chunk pushed for an id with no hub entry is
silently discarded — `send_thinking` leaves the table unchanged and
broadcasts nothing — whereas `send_status` on the same missing id
creates the entry (storing the status, broadcasting nothing since the
fresh entry has no subscriber). -/
theorem send_thinking_missing_id (h : Hub) (id chunk msg : String)
    (translate : String → String) (now : Int)
    (hmiss : hubFind h id = none) :
    send_thinking h id chunk translate = (h, []) ∧
    hubFind (send_status h id msg now).1 id =
      some { freshProgress id now with current_status := msg } ∧
    (send_status h id msg now).2 = [] := by
  refine ⟨?_, ?_, ?_⟩
  · unfold send_thinking
    rw [hmiss]
  · unfold send_status
    rw [hmiss]
    exact hubFind_hubSet h id _
  · unfold send_status
    rw [hmiss]
    rfl

/-- Witness for C10 on the empty hub. -/
theorem send_thinking_missing_id_witness :
    send_thinking [] "sub9" "**Analiza**" (fun s => s) = ([], []) ∧
    hubFind (send_status [] "sub9" "Przesyłam pliki..." 7).1 "sub9" =
      some { freshProgress "sub9" 7 with current_status := "Przesyłam pliki..." } ∧
    (send_status [] "sub9" "Przesyłam pliki..." 7).2 = [] :=
  send_thinking_missing_id [] "sub9" "**Analiza**" "Przesyłam pliki..." (fun s => s) 7 rfl

/-- C5 (amended): the gate denies exactly when the user is not
allow-listed and one of the rolling 24-hour counters has reached its
ceiling (so at ceiling−1 it allows, and an allow-listed user is never
denied); every denial carries the ceiling of the violated limit, a
remaining quota of 0, and a Retry-After of max(1, (oldest + 24h) −
now); and a denial returns before any file is saved or submission
record created. -/
theorem submit_admission_spec (i : AdmissionInput) :
    (submit_admission i = .allowed ↔
      i.is_allowlisted = true ∨
        (i.user_count < i.user_limit ∧ i.global_count < i.global_limit)) ∧
    (∀ d proceed, submit_admission i = .denied d →
      d.headers.limit = (if i.user_limit ≤ i.user_count then i.user_limit
        else i.global_limit) ∧
      d.headers.remaining = 0 ∧
      d.retryAfter =
        max 1 ((match (if i.user_limit ≤ i.user_count then i.user_oldest
            else i.global_oldest) with
          | some t => t + 86400
          | none => i.now + 86400) - i.now) ∧
      submit_solution_step i proceed = (.denied d, noSubmitEffects)) := by
  cases ha : i.is_allowlisted
  · by_cases h1 : i.user_limit ≤ i.user_count
    · have e : submit_admission i =
          .denied { errorLimit := some i.user_limit
                    headers := _calculate_rate_limit_headers i.user_limit i.user_count
                      i.user_oldest i.now 24
                    retryAfter := _calculate_retry_after i.user_oldest i.now 24 } := by
        unfold submit_admission
        simp [ha, ge_iff_le, h1]
      refine ⟨?_, ?_⟩
      · rw [e]
        simp only [ha, Bool.false_eq_true, false_or, iff_false, reduceCtorEq, false_iff]
        omega
      · intro d proceed hd
        rw [e] at hd
        rw [AdmissionDecision.denied.injEq] at hd
        subst hd
        refine ⟨by simp [_calculate_rate_limit_headers, if_pos h1],
          by simp [_calculate_rate_limit_headers]; omega, ?_,
          by simp [submit_solution_step, e]⟩
        rw [if_pos h1]
        rfl
    · by_cases h2 : i.global_limit ≤ i.global_count
      · have e : submit_admission i =
            .denied { errorLimit := none
                      headers := _calculate_rate_limit_headers i.global_limit i.global_count
                        i.global_oldest i.now 24
                      retryAfter := _calculate_retry_after i.global_oldest i.now 24 } := by
          unfold submit_admission
          simp [ha, ge_iff_le, h1, h2]
        refine ⟨?_, ?_⟩
        · rw [e]
          simp only [ha, Bool.false_eq_true, false_or, iff_false, reduceCtorEq, false_iff]
          omega
        · intro d proceed hd
          rw [e] at hd
          rw [AdmissionDecision.denied.injEq] at hd
          subst hd
          refine ⟨by simp [_calculate_rate_limit_headers, if_neg h1],
            by simp [_calculate_rate_limit_headers]; omega, ?_,
            by simp [submit_solution_step, e]⟩
          rw [if_neg h1]
          rfl
      · have e : submit_admission i = .allowed := by
          unfold submit_admission
          simp [ha, ge_iff_le, h1, h2]
        refine ⟨?_, ?_⟩
        · rw [e]
          simp only [true_iff, ha, Bool.false_eq_true, false_or]
          omega
        · intro d proceed hd
          rw [e] at hd
          exact absurd hd (by simp)
  · have e : submit_admission i = .allowed := by
      unfold submit_admission
      simp [ha]
    refine ⟨by simp [e, ha], ?_⟩
    intro d proceed hd
    rw [e] at hd
    exact absurd hd (by simp)

/-- C5 counterexample: the denial response does not carry the current
count — it carries the ceiling, the remaining quota (0), the reset
time and the retry-after, but the count 5 appears nowhere in it. -/
theorem submit_admission_count_cex :
    submit_admission cexAdmissionInput = .denied cexDenial ∧
    cexAdmissionInput.user_count = 5 ∧
    ¬ cexDenial.carries 5 := by
  refine ⟨by decide, rfl, by decide⟩

/-- Witness for the amended C5 at the concrete over-limit state. -/
theorem submit_admission_spec_witness :
    cexDenial.headers.limit = 3 ∧ cexDenial.headers.remaining = 0 ∧
    cexDenial.retryAfter = 85400 ∧
    submit_solution_step cexAdmissionInput (fun _ =>
      { recordCreated := true, filesSaved := true }) =
      (.denied cexDenial, noSubmitEffects) := by
  have h := (submit_admission_spec cexAdmissionInput).2 cexDenial
    (fun _ => { recordCreated := true, filesSaved := true }) (by decide)
  exact ⟨h.1, h.2.1, by decide, h.2.2.2⟩

/-- C3: every run of `process_submission_background` ends in a
terminal persisted status — COMPLETED with all result fields exactly
when the inference call returned a result (including degraded
zero-score results), FAILED with a persisted error message whenever
the task PDF is missing or the inference call raised — and the
embedding is a total function, so no exception escapes without a
terminal write. -/
theorem process_submission_background_terminal (r0 : SubmissionRecord)
    (env : OrchestratorEnv) :
    ((process_submission_background r0 env).1.status = .completed ∨
      (process_submission_background r0 env).1.status = .failed) ∧
    ((process_submission_background r0 env).1.status = .completed ↔
      env.taskPdfExists = true ∧ ∃ res, env.infer = .ok res) ∧
    ((process_submission_background r0 env).1.status = .failed →
      ((process_submission_background r0 env).1.error_message).isSome = true) ∧
    (∀ res, env.taskPdfExists = true → env.infer = .ok res →
      process_submission_background r0 env =
        ({ r0 with status := .completed, score := some res.score,
                   feedback := some res.feedback, issue_type := some res.issue_type,
                   abuse_score := some res.abuse_score },
         .completedMsg res.score res.feedback)) := by
  cases hp : env.taskPdfExists <;> cases hi : env.infer <;>
    simp [process_submission_background, hp, hi]

/-- Witness for C3 at a concrete successful run. -/
theorem process_submission_background_terminal_witness :
    process_submission_background initRecord okEnv =
      ({ initRecord with status := .completed, score := some 5, feedback := some "dobrze",
                         issue_type := some IssueType.none, abuse_score := some 0 },
       .completedMsg 5 "dobrze") :=
  (process_submission_background_terminal initRecord okEnv).2.2.2
    { score := 5, feedback := "dobrze", issue_type := .none, abuse_score := 0 } rfl rfl

/-- Updating the file cache then looking the same path up yields the
updated entry. -/
theorem cacheFind_cacheSet (c : FileCache) (k : String) (v : CachedFile) :
    cacheFind (cacheSet c k v) k = some v := by
  induction c with
  | nil => simp [cacheFind, cacheSet]
  | cons kv rest ih =>
    by_cases hk : kv.1 = k
    · simp [cacheFind, cacheSet, hk, List.find?]
    · simpa [cacheFind, cacheSet, hk, List.find?_cons_of_neg, ih] using ih

/-- `_check_cached_file` on a path with no cache entry. -/
theorem check_cached_none (env : RemoteEnv) (cache : FileCache) (path : String)
    (hf : cacheFind cache path = none) :
    _check_cached_file env cache path = (cache, none) := by
  unfold _check_cached_file
  rw [hf]

/-- `_check_cached_file` on an entry older than the TTL: evict. -/
theorem check_cached_expired (env : RemoteEnv) (cache : FileCache) (path : String)
    (cached : CachedFile) (hf : cacheFind cache path = some cached)
    (hA : env.now - cached.cached_at > _CACHE_TTL_SECONDS) :
    _check_cached_file env cache path = (cacheErase cache path, none) := by
  unfold _check_cached_file
  rw [hf]
  exact if_pos hA

/-- `_check_cached_file` on an entry whose stored hash no longer
matches the file content: evict. -/
theorem check_cached_changed (env : RemoteEnv) (cache : FileCache) (path : String)
    (cached : CachedFile) (hf : cacheFind cache path = some cached)
    (hA : ¬ env.now - cached.cached_at > _CACHE_TTL_SECONDS)
    (hB : ¬ env.fileHash path = cached.file_hash) :
    _check_cached_file env cache path = (cacheErase cache path, none) := by
  unfold _check_cached_file
  rw [hf]
  exact (if_neg hA).trans (if_pos hB)

/-- `_check_cached_file` on a fresh, unchanged, remotely live entry:
cache hit. -/
theorem check_cached_hit (env : RemoteEnv) (cache : FileCache) (path : String)
    (cached : CachedFile) (hf : cacheFind cache path = some cached)
    (hA : ¬ env.now - cached.cached_at > _CACHE_TTL_SECONDS)
    (hB : env.fileHash path = cached.file_hash)
    (hC : env.remoteAlive cached.gemini_name = true) :
    _check_cached_file env cache path = (cache, some cached.gemini_name) := by
  unfold _check_cached_file
  rw [hf]
  exact (if_neg hA).trans ((if_neg (not_not_intro hB)).trans (if_pos hC))

/-- `_check_cached_file` on an entry whose remote file is gone:
evict. -/
theorem check_cached_dead (env : RemoteEnv) (cache : FileCache) (path : String)
    (cached : CachedFile) (hf : cacheFind cache path = some cached)
    (hA : ¬ env.now - cached.cached_at > _CACHE_TTL_SECONDS)
    (hB : env.fileHash path = cached.file_hash)
    (hC : ¬ env.remoteAlive cached.gemini_name = true) :
    _check_cached_file env cache path = (cacheErase cache path, none) := by
  unfold _check_cached_file
  rw [hf]
  exact (if_neg hA).trans ((if_neg (not_not_intro hB)).trans (if_neg hC))

/-- `_upload_file` on a cache hit: hand back the cached name, no
upload. -/
theorem upload_file_of_hit (env : RemoteEnv) (cache c1 : FileCache) (path n name : String)
    (h : _check_cached_file env cache path = (c1, some name)) :
    _upload_file env cache path true n = (c1, name, 0) := by
  unfold _upload_file
  rw [h]
  rfl

/-- `_upload_file` on a cache miss: upload and store the fresh
reference. -/
theorem upload_file_of_miss (env : RemoteEnv) (cache c1 : FileCache) (path n : String)
    (h : _check_cached_file env cache path = (c1, none)) :
    _upload_file env cache path true n =
      (cacheSet c1 path
        { gemini_name := n, file_hash := env.fileHash path, cached_at := env.now },
       n, 1) := by
  unfold _upload_file
  rw [h]
  rfl

/-- Case analysis for one caching `_upload_file` call: either it hits
a valid entry (returning its name, cache unchanged, no upload), or it
uploads and stores the fresh reference. -/
theorem upload_file_cases (env : RemoteEnv) (cache : FileCache) (path n : String) :
    (∃ cached, cacheFind cache path = some cached ∧
      ¬ env.now - cached.cached_at > _CACHE_TTL_SECONDS ∧
      env.fileHash path = cached.file_hash ∧
      env.remoteAlive cached.gemini_name = true ∧
      _upload_file env cache path true n = (cache, cached.gemini_name, 0)) ∨
    (∃ c1, _upload_file env cache path true n =
      (cacheSet c1 path
        { gemini_name := n, file_hash := env.fileHash path, cached_at := env.now },
       n, 1)) := by
  rcases hf : cacheFind cache path with - | cached
  · exact Or.inr ⟨cache, upload_file_of_miss env cache cache path n
      (check_cached_none env cache path hf)⟩
  · by_cases hA : env.now - cached.cached_at > _CACHE_TTL_SECONDS
    · exact Or.inr ⟨_, upload_file_of_miss env cache _ path n
        (check_cached_expired env cache path cached hf hA)⟩
    · by_cases hB : env.fileHash path = cached.file_hash
      · by_cases hC : env.remoteAlive cached.gemini_name = true
        · exact Or.inl ⟨cached, rfl, hA, hB, hC, upload_file_of_hit env cache cache path n
            cached.gemini_name (check_cached_hit env cache path cached hf hA hB hC)⟩
        · exact Or.inr ⟨_, upload_file_of_miss env cache _ path n
            (check_cached_dead env cache path cached hf hA hB hC)⟩
      · exact Or.inr ⟨_, upload_file_of_miss env cache _ path n
          (check_cached_changed env cache path cached hf hA hB)⟩

/-- A single caching `_upload_file` call issues zero uploads or
one. -/
theorem upload_file_count_le_one (env : RemoteEnv) (cache : FileCache)
    (path n : String) :
    (_upload_file env cache path true n).2.2 ≤ 1 := by
  rcases upload_file_cases env cache path n with ⟨c, -, -, -, -, heq⟩ | ⟨c1, heq⟩ <;>
    simp [heq]

/-- After a caching `_upload_file` call the cache holds an entry for
the path whose stored hash is the hash observed during the call; when
the call uploaded, the entry is the freshly stored one. -/
theorem upload_file_entry (env : RemoteEnv) (cache : FileCache) (path n : String) :
    ∃ e, cacheFind (_upload_file env cache path true n).1 path = some e ∧
      e.file_hash = env.fileHash path ∧
      ((_upload_file env cache path true n).2.2 = 1 →
        e = { gemini_name := n, file_hash := env.fileHash path, cached_at := env.now }) := by
  rcases upload_file_cases env cache path n with
    ⟨cached, hf, hA, hB, hC, heq⟩ | ⟨c1, heq⟩ <;> rw [heq]
  · exact ⟨cached, hf, hB.symm, fun h => absurd h (by simp)⟩
  · exact ⟨_, cacheFind_cacheSet c1 path _, rfl, fun _ => rfl⟩

/-- C8 (amended): a caching upload reuses the cached reference with no
new upload iff an entry exists whose age does not exceed the 24-hour
TTL, whose stored hash equals the recomputed one, and whose remote
name is still live (and then the cached name is returned with the
cache unchanged); two calls for the same unchanged file within the TTL
against a live remote issue at most one upload in total; and mutating
the content between the calls forces a fresh upload on the second
call, replacing the stale entry. -/
theorem file_cache_spec (env1 : RemoteEnv) (cache : FileCache) (path n1 : String) :
    ((_upload_file env1 cache path true n1).2.2 = 0 ↔
      ∃ cached, cacheFind cache path = some cached ∧
        env1.now - cached.cached_at ≤ _CACHE_TTL_SECONDS ∧
        env1.fileHash path = cached.file_hash ∧
        env1.remoteAlive cached.gemini_name = true) ∧
    (∀ cached, cacheFind cache path = some cached →
      env1.now - cached.cached_at ≤ _CACHE_TTL_SECONDS →
      env1.fileHash path = cached.file_hash →
      env1.remoteAlive cached.gemini_name = true →
      _upload_file env1 cache path true n1 = (cache, cached.gemini_name, 0)) ∧
    (∀ env2 n2, env2.fileHash path = env1.fileHash path →
      env2.now - env1.now ≤ _CACHE_TTL_SECONDS →
      (∀ m, env2.remoteAlive m = true) →
      (_upload_file env1 cache path true n1).2.2 +
        (_upload_file env2 (_upload_file env1 cache path true n1).1 path true n2).2.2 ≤ 1) ∧
    (∀ env2 n2, ¬ env2.fileHash path = env1.fileHash path →
      (_upload_file env2 (_upload_file env1 cache path true n1).1 path true n2).2.2 = 1 ∧
      cacheFind (_upload_file env2 (_upload_file env1 cache path true n1).1 path
          true n2).1 path =
        some { gemini_name := n2, file_hash := env2.fileHash path
               cached_at := env2.now }) := by
  have hhit : ∀ cached, cacheFind cache path = some cached →
      env1.now - cached.cached_at ≤ _CACHE_TTL_SECONDS →
      env1.fileHash path = cached.file_hash →
      env1.remoteAlive cached.gemini_name = true →
      _upload_file env1 cache path true n1 = (cache, cached.gemini_name, 0) := by
    intro cached hf h1 h2 h3
    exact upload_file_of_hit env1 cache cache path n1 cached.gemini_name
      (check_cached_hit env1 cache path cached hf (by omega) h2 h3)
  refine ⟨⟨?_, ?_⟩, hhit, ?_, ?_⟩
  · intro h0
    rcases upload_file_cases env1 cache path n1 with
      ⟨cached, hf, hA, hB, hC, heq⟩ | ⟨c1, heq⟩
    · exact ⟨cached, hf, by omega, hB, hC⟩
    · rw [heq] at h0
      exact absurd h0 (by simp)
  · rintro ⟨cached, hf, h1, h2, h3⟩
    rw [hhit cached hf h1 h2 h3]
  · intro env2 n2 hsamehash hwithin halive
    rcases upload_file_cases env1 cache path n1 with
      ⟨cached, hf, hA, hB, hC, heq⟩ | ⟨c1, heq⟩
    · rw [heq]
      simpa using upload_file_count_le_one env2 cache path n2
    · rw [heq]
      have hfind : cacheFind (cacheSet c1 path
          { gemini_name := n1, file_hash := env1.fileHash path
            cached_at := env1.now }) path =
          some { gemini_name := n1, file_hash := env1.fileHash path
                 cached_at := env1.now } :=
        cacheFind_cacheSet c1 path _
      have hsecond := upload_file_of_hit env2 _ _ path n2 n1
        (check_cached_hit env2 _ path _ hfind (by show ¬ env2.now - env1.now > _ ; omega)
          (by exact hsamehash) (halive n1))
      rw [hsecond]
      exact Nat.le_refl 1
  · intro env2 n2 hdiff
    obtain ⟨e, he, hehash, hfresh⟩ := upload_file_entry env1 cache path n1
    rcases upload_file_cases env2 (_upload_file env1 cache path true n1).1 path n2 with
      ⟨cached2, hf2, hA2, hB2, hC2, heq2⟩ | ⟨c2, heq2⟩
    · exfalso
      rw [he] at hf2
      injection hf2 with h2e
      subst h2e
      rw [hehash] at hB2
      exact hdiff hB2
    · rw [heq2]
      exact ⟨rfl, cacheFind_cacheSet c2 path _⟩

/-- C8 counterexample: at age exactly equal to the TTL the entry's age
is not below the TTL, yet `_upload_file` still reuses the cached
reference and issues no upload (the source evicts only when age is
strictly greater than the TTL). -/
theorem cache_ttl_boundary_cex :
    cacheFind cexFileCache "task.pdf" =
      some { gemini_name := "files/abc", file_hash := "h1", cached_at := 0 } ∧
    ¬ (cexCacheEnv.now - 0 < _CACHE_TTL_SECONDS) ∧
    _upload_file cexCacheEnv cexFileCache "task.pdf" true "files/new" =
      (cexFileCache, "files/abc", 0) := by
  refine ⟨rfl, by decide, rfl⟩

/-- Witness for the amended C8: a concrete hit, a concrete
unchanged-file second call with at most one upload in total, and a
concrete mutated-file second call that re-uploads and replaces the
entry. -/
theorem file_cache_spec_witness :
    _upload_file cexCacheEnv cexFileCache "task.pdf" true "files/new" =
      (cexFileCache, "files/abc", 0) ∧
    (_upload_file cexCacheEnv cexFileCache "task.pdf" true "files/new").2.2 +
      (_upload_file cexCacheEnv2
        (_upload_file cexCacheEnv cexFileCache "task.pdf" true "files/new").1 "task.pdf"
        true "files/n2").2.2 ≤ 1 ∧
    (_upload_file cexCacheEnv3
      (_upload_file cexCacheEnv cexFileCache "task.pdf" true "files/new").1 "task.pdf"
      true "files/n3").2.2 = 1 ∧
    cacheFind (_upload_file cexCacheEnv3
      (_upload_file cexCacheEnv cexFileCache "task.pdf" true "files/new").1 "task.pdf"
      true "files/n3").1 "task.pdf" =
      some { gemini_name := "files/n3", file_hash := cexCacheEnv3.fileHash "task.pdf"
             cached_at := cexCacheEnv3.now } := by
  have h := file_cache_spec cexCacheEnv cexFileCache "task.pdf" "files/new"
  refine ⟨h.2.1 { gemini_name := "files/abc", file_hash := "h1", cached_at := 0 }
      rfl (by decide) rfl rfl, ?_, ?_, ?_⟩
  · exact h.2.2.1 cexCacheEnv2 "files/n2" rfl (by decide) (fun m => rfl)
  · exact (h.2.2.2 cexCacheEnv3 "files/n3" (by decide)).1
  · exact (h.2.2.2 cexCacheEnv3 "files/n3" (by decide)).2

theorem dropWhile_append_of_all (p : Char → Bool) (l r : List Char) (h : l.all p) :
    (l ++ r).dropWhile p = r.dropWhile p := by
  induction l with
  | nil => rfl
  | cons a t ih =>
    simp only [List.all_cons, Bool.and_eq_true] at h
    simp [List.dropWhile_cons, h.1, ih h.2]

theorem takeWhile_dropWhile_append_stop (p : Char → Bool) (l : List Char) (x : Char)
    (r : List Char) (hl : l.all p) (hx : ¬ p x) :
    (l ++ x :: r).takeWhile p = l ∧ (l ++ x :: r).dropWhile p = x :: r := by
  induction l with
  | nil => simp [List.takeWhile_cons, List.dropWhile_cons, hx]
  | cons a t ih =>
    simp only [List.all_cons, Bool.and_eq_true] at hl
    simp [List.takeWhile_cons, List.dropWhile_cons, hl.1, ih hl.2]

theorem parseJsonString_clean (F : List Char)
    (hF : ∀ c ∈ F, ¬ c = '"' ∧ ¬ c = '\\' ∧ ¬ c.toNat < 32) (r : List Char) :
    parseJsonString (F ++ '"' :: r) = some (F, r) := by
  induction F with
  | nil =>
    rw [List.nil_append, parseJsonString.eq_def]
    simp
  | cons c t ih =>
    obtain ⟨h1, h2, h3⟩ := hF c (by simp)
    have ht := fun d hd => hF d (List.mem_cons_of_mem c hd)
    rw [List.cons_append, parseJsonString.eq_def]
    simp [h1, h2, h3, ih ht]

theorem digit_not_delim (d : Char) (hd : d.isDigit = true) :
    ¬ d = '-' ∧ ¬ d = '\x7b' ∧ ¬ d = '[' ∧ ¬ d = '"' ∧ ¬ d = 't' ∧ ¬ d = 'f' ∧
    ¬ d = 'n' ∧ ¬ d = 'N' ∧ ¬ d = 'I' ∧ ¬ d = '\x7d' ∧ ¬ d = '`' ∧ ¬ d = '\\' := by
  refine ⟨?_, ?_, ?_, ?_, ?_, ?_, ?_, ?_, ?_, ?_, ?_, ?_⟩ <;>
    · rintro rfl
      revert hd
      decide

theorem parseJsonNumberTail_comma (neg : Bool) (I : List Char) (r : List Char) :
    parseJsonNumberTail neg I (',' :: r) =
      some (Json.num (if neg then -(Int.ofNat (digitsToNat 0 I))
        else Int.ofNat (digitsToNat 0 I)), ',' :: r) := rfl

theorem parseJsonNumber_cons (c : Char) (t : List Char) :
    parseJsonNumber (c :: t) =
      parseJsonNumberCore (decide (c = '-')) (if decide (c = '-') then t else c :: t) := by
  simp [parseJsonNumber]

theorem parseJsonNumberCore_int (neg : Bool) (ds : List Char) (hne : ds ≠ [])
    (hdig : ds.all Char.isDigit) (hlead : ds = ['0'] ∨ ds.head? ≠ some '0')
    (r : List Char) :
    parseJsonNumberCore neg (ds ++ ',' :: r) =
      some (Json.num (intOfDigits neg ds), ',' :: r) := by
  obtain ⟨d, ds', rfl⟩ : ∃ d ds', ds = d :: ds' := by
    cases ds with
    | nil => exact absurd rfl hne
    | cons a t => exact ⟨a, t, rfl⟩
  have hd : d.isDigit = true := by
    simp only [List.all_cons, Bool.and_eq_true] at hdig
    exact hdig.1
  have htd := takeWhile_dropWhile_append_stop Char.isDigit (d :: ds') ',' r
    hdig (by decide)
  have hnd : ¬ ¬ d.isDigit = true := by simp [hd]
  simp only [List.cons_append, parseJsonNumberCore, if_neg hnd]
  rcases hlead with h0 | h0
  · obtain ⟨rfl, rfl⟩ : d = '0' ∧ ds' = [] := by
      rw [show (d :: ds' = ['0']) ↔ (d = '0' ∧ ds' = []) from by simp] at h0
      exact h0
    simp [parseJsonNumberTail_comma, intOfDigits]
  · have hd0 : ¬ d = '0' := by simpa using h0
    rw [if_neg hd0, if_neg hd0,
      show List.takeWhile Char.isDigit (d :: (ds' ++ ',' :: r)) = d :: ds' from htd.1,
      show List.dropWhile Char.isDigit (d :: (ds' ++ ',' :: r)) = ',' :: r from htd.2,
      parseJsonNumberTail_comma]
    rfl

theorem parseJsonNumber_int (neg : Bool) (ds : List Char) (hne : ds ≠ [])
    (hdig : ds.all Char.isDigit) (hlead : ds = ['0'] ∨ ds.head? ≠ some '0')
    (r : List Char) :
    parseJsonNumber ((if neg then '-' :: ds else ds) ++ ',' :: r) =
      some (Json.num (intOfDigits neg ds), ',' :: r) := by
  cases neg
  · obtain ⟨d, ds', rfl⟩ : ∃ d ds', ds = d :: ds' := by
      cases ds with
      | nil => exact absurd rfl hne
      | cons a t => exact ⟨a, t, rfl⟩
    have hd : d.isDigit = true := by
      simp only [List.all_cons, Bool.and_eq_true] at hdig
      exact hdig.1
    have hnegd : (decide (d = '-')) = false := decide_eq_false (digit_not_delim d hd).1
    simp only [Bool.false_eq_true, if_false, List.cons_append, parseJsonNumber_cons, hnegd]
    rw [← List.cons_append]
    exact parseJsonNumberCore_int false (d :: ds') hne hdig hlead r
  · simp only [if_true, List.cons_append, parseJsonNumber_cons]
    simp only [decide_True, if_true]
    exact parseJsonNumberCore_int true ds hne hdig hlead r

theorem skipJsonWs_cons_of_neg (c : Char) (t : List Char) (h : jsonWs c = false) :
    skipJsonWs (c :: t) = c :: t := by
  simp [skipJsonWs, List.dropWhile_cons, h]

theorem skipJsonWs_cons_of_pos (c : Char) (t : List Char) (h : jsonWs c = true) :
    skipJsonWs (c :: t) = skipJsonWs t := by
  simp [skipJsonWs, List.dropWhile_cons, h]

theorem digit_ne (d : Char) (hd : d.isDigit = true) (c : Char) (hc : c.isDigit = false) :
    ¬ d = c := by
  rintro rfl
  rw [hd] at hc
  cases hc

theorem jsonWs_of_digit (d : Char) (hd : d.isDigit = true) : jsonWs d = false := by
  simp only [jsonWs]
  simp [decide_eq_false (digit_ne d hd ' ' (by decide)),
    decide_eq_false (digit_ne d hd '\t' (by decide)),
    decide_eq_false (digit_ne d hd '\n' (by decide)),
    decide_eq_false (digit_ne d hd '\r' (by decide))]

theorem parseJsonValue_obj (fuel : Nat) (rest : List Char) :
    parseJsonValue (fuel + 1) ('\x7b' :: rest) = parseJsonMembers fuel (skipJsonWs rest) [] := by
  rw [parseJsonValue.eq_def]
  simp

theorem parseJsonValue_string (fuel : Nat) (rest : List Char) :
    parseJsonValue (fuel + 1) ('"' :: rest) =
      (match parseJsonString rest with
       | some (s, r) => some (Json.str s, r)
       | none => none) := by
  rw [parseJsonValue.eq_def]
  simp

theorem parseJsonValue_ofNumber (fuel : Nat) (c : Char) (rest : List Char)
    (x : Json × List Char)
    (h1 : ¬ c = '\x7b') (h2 : ¬ c = '[') (h3 : ¬ c = '"') (h4 : ¬ c = 't')
    (h5 : ¬ c = 'f') (h6 : ¬ c = 'n') (h7 : ¬ c = 'N') (h8 : ¬ c = 'I')
    (h9 : c = '-' ∨ c.isDigit = true)
    (hn : parseJsonNumber (c :: rest) = some x) :
    parseJsonValue (fuel + 1) (c :: rest) = some x := by
  rw [parseJsonValue.eq_def]
  simp [h1, h2, h3, h4, h5, h6, h7, h8, h9, hn]

theorem parseJsonMembers_cons_comma (fuel : Nat) (rest : List Char)
    (acc : List (List Char × Json)) (key r1 r2 : List Char) (v : Json) (r3 r4 : List Char)
    (hk : parseJsonString rest = some (key, r1))
    (hc : skipJsonWs r1 = ':' :: r2)
    (hv : parseJsonValue fuel (skipJsonWs r2) = some (v, r3))
    (h3 : skipJsonWs r3 = ',' :: r4) :
    parseJsonMembers (fuel + 1) ('"' :: rest) acc =
      parseJsonMembers fuel (skipJsonWs r4) (acc ++ [(key, v)]) := by
  rw [parseJsonMembers.eq_def]
  simp [hk, hc, hv, h3]

theorem parseJsonMembers_cons_close (fuel : Nat) (rest : List Char)
    (acc : List (List Char × Json)) (key r1 r2 : List Char) (v : Json) (r3 r4 : List Char)
    (hk : parseJsonString rest = some (key, r1))
    (hc : skipJsonWs r1 = ':' :: r2)
    (hv : parseJsonValue fuel (skipJsonWs r2) = some (v, r3))
    (h3 : skipJsonWs r3 = '\x7d' :: r4) :
    parseJsonMembers (fuel + 1) ('"' :: rest) acc =
      some (Json.obj (acc ++ [(key, v)]), r4) := by
  rw [parseJsonMembers.eq_def]
  simp [hk, hc, hv, h3]

theorem cleanFeedbackChar_str (F : List Char) (hF : F.all cleanFeedbackChar) :
    ∀ c ∈ F, ¬ c = '"' ∧ ¬ c = '\\' ∧ ¬ c.toNat < 32 := by
  intro c hc
  have := List.all_eq_true.mp hF c hc
  simp only [cleanFeedbackChar, Bool.and_eq_true, decide_eq_true_eq] at this
  tauto

theorem parseJsonValue_render (neg : Bool) (ds F : List Char) (hne : ds ≠ [])
    (hdig : ds.all Char.isDigit) (hlead : ds = ['0'] ∨ ds.head? ≠ some '0')
    (hF : F.all cleanFeedbackChar) (g : Nat) (r : List Char) :
    parseJsonValue (g + 4) (renderScoreFeedback neg ds F ++ r) =
      some (targetJson neg ds F, r) := by
  have hFstr := cleanFeedbackChar_str F hF
  have hshape : renderScoreFeedback neg ds F ++ r =
      '\x7b' :: '"' :: (['s', 'c', 'o', 'r', 'e'] ++ '"' :: ':' :: ' ' :: ((if neg then ['-'] else []) ++ ds ++ (',' :: ' ' :: '"' :: (['f', 'e', 'e', 'd', 'b', 'a', 'c', 'k'] ++ '"' :: ':' :: ' ' :: '"' :: (F ++ '"' :: '\x7d' :: r))))) := by
    simp [renderScoreFeedback]
  rw [hshape]
  rw [show g + 4 = (g + 3) + 1 from rfl, parseJsonValue_obj,
    skipJsonWs_cons_of_neg _ _ (by decide)]
  rw [show g + 3 = (g + 2) + 1 from rfl]
  rw [parseJsonMembers_cons_comma (g + 2) _ [] ['s', 'c', 'o', 'r', 'e'] _ _
      (Json.num (intOfDigits neg ds)) _ _
      (parseJsonString_clean ['s', 'c', 'o', 'r', 'e'] (by decide) _)
      (skipJsonWs_cons_of_neg ':' _ (by decide))
      ?hv1 ?h31]
  case hv1 =>
    rw [skipJsonWs_cons_of_pos ' ' _ (by decide)]
    cases neg
    · obtain ⟨d, ds', rfl⟩ : ∃ d ds', ds = d :: ds' := by
        cases ds with
        | nil => exact absurd rfl hne
        | cons a t => exact ⟨a, t, rfl⟩
      have hd : d.isDigit = true := by
        simp only [List.all_cons, Bool.and_eq_true] at hdig
        exact hdig.1
      have hdm := digit_not_delim d hd
      simp only [Bool.false_eq_true, if_false, List.nil_append, List.cons_append]
      rw [skipJsonWs_cons_of_neg _ _ (jsonWs_of_digit d hd)]
      rw [show g + 2 = (g + 1) + 1 from rfl]
      refine parseJsonValue_ofNumber (g + 1) d _ _ hdm.2.1 (by tauto) (by tauto) (by tauto)
        (by tauto) (by tauto) (by tauto) (by tauto) (Or.inr hd) ?_
      have := parseJsonNumber_int false (d :: ds') hne hdig hlead
        (' ' :: '"' :: (['f', 'e', 'e', 'd', 'b', 'a', 'c', 'k'] ++ '"' :: ':' :: ' ' :: '"' :: (F ++ '"' :: '\x7d' :: r)))
      simpa using this
    · simp only [if_true, List.cons_append]
      rw [skipJsonWs_cons_of_neg _ _ (by decide)]
      rw [show g + 2 = (g + 1) + 1 from rfl]
      refine parseJsonValue_ofNumber (g + 1) '-' _ _ (by decide) (by decide) (by decide)
        (by decide) (by decide) (by decide) (by decide) (by decide) (Or.inl rfl) ?_
      have := parseJsonNumber_int true ds hne hdig hlead
        (' ' :: '"' :: (['f', 'e', 'e', 'd', 'b', 'a', 'c', 'k'] ++ '"' :: ':' :: ' ' :: '"' :: (F ++ '"' :: '\x7d' :: r)))
      simpa using this
  case h31 => exact skipJsonWs_cons_of_neg ',' _ (by decide)
  rw [skipJsonWs_cons_of_pos ' ' _ (by decide),
    skipJsonWs_cons_of_neg '"' _ (by decide)]
  rw [show g + 2 = (g + 1) + 1 from rfl]
  rw [parseJsonMembers_cons_close (g + 1) _ _ ['f', 'e', 'e', 'd', 'b', 'a', 'c', 'k'] _ _
      (Json.str F) _ _ ?hk2 ?hc2 ?hv2 ?h32]
  case hk2 => exact parseJsonString_clean ['f', 'e', 'e', 'd', 'b', 'a', 'c', 'k'] (by decide) _
  case hc2 => exact skipJsonWs_cons_of_neg ':' _ (by decide)
  case hv2 =>
    rw [skipJsonWs_cons_of_pos ' ' _ (by decide),
      skipJsonWs_cons_of_neg '"' _ (by decide)]
    rw [parseJsonValue_string g]
    rw [parseJsonString_clean F hFstr ('\x7d' :: r)]
  case h32 => exact skipJsonWs_cons_of_neg '\x7d' _ (by decide)
  rfl


theorem jsonLoads_render (neg : Bool) (ds F : List Char) (hne : ds ≠ [])
    (hdig : ds.all Char.isDigit) (hlead : ds = ['0'] ∨ ds.head? ≠ some '0')
    (hF : F.all cleanFeedbackChar) (r : List Char) :
    jsonLoads (renderScoreFeedback neg ds F ++ r) =
      (if skipJsonWs r = [] then some (targetJson neg ds F) else none) := by
  have hcons : renderScoreFeedback neg ds F ++ r =
      '\x7b' :: (('"' :: 's' :: 'c' :: 'o' :: 'r' :: 'e' :: '"' :: ':' :: ' ' ::
        ((if neg then ['-'] else []) ++ ds ++
          (',' :: ' ' :: '"' :: 'f' :: 'e' :: 'e' :: 'd' :: 'b' :: 'a' :: 'c' :: 'k' ::
            '"' :: ':' :: ' ' :: '"' :: (F ++ '"' :: '\x7d' :: [])))) ++ r) := by
    simp [renderScoreFeedback]
  have hskip : skipJsonWs (renderScoreFeedback neg ds F ++ r) =
      renderScoreFeedback neg ds F ++ r := by
    rw [hcons]
    exact skipJsonWs_cons_of_neg _ _ (by decide)
  have hlen : ∃ g, (renderScoreFeedback neg ds F ++ r).length + 1 = g + 4 := by
    refine ⟨(renderScoreFeedback neg ds F ++ r).length + 1 - 4, ?_⟩
    have h4 : 4 ≤ (renderScoreFeedback neg ds F ++ r).length + 1 := by
      rw [hcons]
      simp
    omega
  obtain ⟨g, hg⟩ := hlen
  simp only [jsonLoads]
  rw [hskip, hg, parseJsonValue_render neg ds F hne hdig hlead hF g r]

theorem scanBalanced_plain (c : Char) (h1 : ¬ c = '"') (h2 : ¬ c = '\x7b')
    (h3 : ¬ c = '\x7d') (t : List Char) (depth : Nat) (acc : List Char) :
    scanBalanced (c :: t) depth false false acc =
      scanBalanced t depth false false (c :: acc) := by
  rw [scanBalanced.eq_def]
  simp [h1, h2, h3]

theorem scanBalanced_inplain (c : Char) (h1 : ¬ c = '"') (h2 : ¬ c = '\\')
    (t : List Char) (depth : Nat) (acc : List Char) :
    scanBalanced (c :: t) depth true false acc =
      scanBalanced t depth true false (c :: acc) := by
  rw [scanBalanced.eq_def]
  simp [h1, h2]

theorem scanBalanced_quote_open (t : List Char) (depth : Nat) (acc : List Char) :
    scanBalanced ('"' :: t) depth false false acc =
      scanBalanced t depth true false ('"' :: acc) := by
  rw [scanBalanced.eq_def]
  simp

theorem scanBalanced_quote_close (t : List Char) (depth : Nat) (acc : List Char) :
    scanBalanced ('"' :: t) depth true false acc =
      scanBalanced t depth false false ('"' :: acc) := by
  rw [scanBalanced.eq_def]
  simp

theorem scanBalanced_open (t : List Char) (depth : Nat) (acc : List Char) :
    scanBalanced ('\x7b' :: t) depth false false acc =
      scanBalanced t (depth + 1) false false ('\x7b' :: acc) := by
  rw [scanBalanced.eq_def]
  simp

theorem scanBalanced_close_ret (t : List Char) (acc : List Char) :
    scanBalanced ('\x7d' :: t) 1 false false acc = some (('\x7d' :: acc).reverse) := by
  rw [scanBalanced.eq_def]
  simp

theorem scanBalanced_run_outside (L : List Char)
    (hL : ∀ c ∈ L, ¬ c = '"' ∧ ¬ c = '\x7b' ∧ ¬ c = '\x7d')
    (rest : List Char) (depth : Nat) (acc : List Char) :
    scanBalanced (L ++ rest) depth false false acc =
      scanBalanced rest depth false false (L.reverse ++ acc) := by
  induction L generalizing acc with
  | nil => simp
  | cons c t ih =>
    obtain ⟨h1, h2, h3⟩ := hL c (by simp)
    have ht := fun d hd => hL d (List.mem_cons_of_mem c hd)
    rw [List.cons_append, scanBalanced_plain c h1 h2 h3, ih ht]
    simp

theorem scanBalanced_run_inString (L : List Char)
    (hL : ∀ c ∈ L, ¬ c = '"' ∧ ¬ c = '\\')
    (rest : List Char) (depth : Nat) (acc : List Char) :
    scanBalanced (L ++ rest) depth true false acc =
      scanBalanced rest depth true false (L.reverse ++ acc) := by
  induction L generalizing acc with
  | nil => simp
  | cons c t ih =>
    obtain ⟨h1, h2⟩ := hL c (by simp)
    have ht := fun d hd => hL d (List.mem_cons_of_mem c hd)
    rw [List.cons_append, scanBalanced_inplain c h1 h2, ih ht]
    simp


theorem digit_scan_safe (neg : Bool) (ds : List Char) (hdig : ds.all Char.isDigit) :
    ∀ c ∈ (if neg then ['-'] else []) ++ ds, ¬ c = '"' ∧ ¬ c = '\x7b' ∧ ¬ c = '\x7d' := by
  intro c hc
  rcases List.mem_append.mp hc with h | h
  · cases neg <;> simp at h
    subst h
    exact ⟨by decide, by decide, by decide⟩
  · have hd := List.all_eq_true.mp hdig c h
    have := digit_not_delim c hd
    tauto

theorem feedback_scan_safe (F : List Char) (hF : F.all cleanFeedbackChar) :
    ∀ c ∈ F, ¬ c = '"' ∧ ¬ c = '\\' := by
  intro c hc
  have := List.all_eq_true.mp hF c hc
  simp only [cleanFeedbackChar, Bool.and_eq_true, decide_eq_true_eq] at this
  tauto

theorem scanBalanced_render (neg : Bool) (ds F : List Char)
    (hdig : ds.all Char.isDigit) (hF : F.all cleanFeedbackChar) (rest : List Char) :
    scanBalanced (renderScoreFeedback neg ds F ++ rest) 0 false false [] =
      some (renderScoreFeedback neg ds F) := by
  have hshape : renderScoreFeedback neg ds F ++ rest =
      '\x7b' :: '"' :: 's' :: 'c' :: 'o' :: 'r' :: 'e' :: '"' :: ':' :: ' ' ::
        (((if neg then ['-'] else []) ++ ds) ++
          (',' :: ' ' :: '"' :: 'f' :: 'e' :: 'e' :: 'd' :: 'b' :: 'a' :: 'c' :: 'k' ::
            '"' :: ':' :: ' ' :: '"' :: (F ++ '"' :: '\x7d' :: rest))) := by
    simp [renderScoreFeedback]
  rw [hshape, scanBalanced_open, Nat.zero_add, scanBalanced_quote_open]
  rw [scanBalanced_inplain 's' (by decide) (by decide),
    scanBalanced_inplain 'c' (by decide) (by decide),
    scanBalanced_inplain 'o' (by decide) (by decide),
    scanBalanced_inplain 'r' (by decide) (by decide),
    scanBalanced_inplain 'e' (by decide) (by decide),
    scanBalanced_quote_close,
    scanBalanced_plain ':' (by decide) (by decide) (by decide),
    scanBalanced_plain ' ' (by decide) (by decide) (by decide)]
  rw [scanBalanced_run_outside ((if neg then ['-'] else []) ++ ds)
    (digit_scan_safe neg ds hdig)]
  rw [scanBalanced_plain ',' (by decide) (by decide) (by decide),
    scanBalanced_plain ' ' (by decide) (by decide) (by decide),
    scanBalanced_quote_open,
    scanBalanced_inplain 'f' (by decide) (by decide),
    scanBalanced_inplain 'e' (by decide) (by decide),
    scanBalanced_inplain 'e' (by decide) (by decide),
    scanBalanced_inplain 'd' (by decide) (by decide),
    scanBalanced_inplain 'b' (by decide) (by decide),
    scanBalanced_inplain 'a' (by decide) (by decide),
    scanBalanced_inplain 'c' (by decide) (by decide),
    scanBalanced_inplain 'k' (by decide) (by decide),
    scanBalanced_quote_close,
    scanBalanced_plain ':' (by decide) (by decide) (by decide),
    scanBalanced_plain ' ' (by decide) (by decide) (by decide),
    scanBalanced_quote_open]
  rw [scanBalanced_run_inString F (feedback_scan_safe F hF)]
  rw [scanBalanced_quote_close, scanBalanced_close_ret]
  simp [renderScoreFeedback, List.append_assoc]


theorem scoreKeyCheck_render (neg : Bool) (ds F : List Char) :
    scoreKeyCheck (renderScoreFeedback neg ds F) = true := by
  have hshape : renderScoreFeedback neg ds F =
      '\x7b' :: '"' :: 's' :: 'c' :: 'o' :: 'r' :: 'e' :: '"' :: ':' :: ' ' ::
        ((if neg then ['-'] else []) ++ ds ++
          (',' :: ' ' :: '"' :: 'f' :: 'e' :: 'e' :: 'd' :: 'b' :: 'a' :: 'c' :: 'k' ::
            '"' :: ':' :: ' ' :: '"' :: (F ++ '"' :: '\x7d' :: []))) := by
    simp [renderScoreFeedback]
  rw [scoreKeyCheck, hshape]
  rw [show (containsSub [ '"', 's', 'c', 'o', 'r', 'e', '"']
      ('\x7b' :: '"' :: 's' :: 'c' :: 'o' :: 'r' :: 'e' :: '"' :: ':' :: ' ' ::
        ((if neg then ['-'] else []) ++ ds ++
          (',' :: ' ' :: '"' :: 'f' :: 'e' :: 'e' :: 'd' :: 'b' :: 'a' :: 'c' :: 'k' ::
            '"' :: ':' :: ' ' :: '"' :: (F ++ '"' :: '\x7d' :: []))))) = true from by
    rw [containsSub, containsSub]
    simp [List.isPrefixOf]]
  rw [Bool.true_and]
  rw [show (List.filter (fun c => ¬ (c = ' ' ∨ c = '\n'))
      ('\x7b' :: '"' :: 's' :: 'c' :: 'o' :: 'r' :: 'e' :: '"' :: ':' :: ' ' ::
        ((if neg then ['-'] else []) ++ ds ++
          (',' :: ' ' :: '"' :: 'f' :: 'e' :: 'e' :: 'd' :: 'b' :: 'a' :: 'c' :: 'k' ::
            '"' :: ':' :: ' ' :: '"' :: (F ++ '"' :: '\x7d' :: []))))) =
      '\x7b' :: '"' :: 's' :: 'c' :: 'o' :: 'r' :: 'e' :: '"' :: ':' ::
        (List.filter (fun c => ¬ (c = ' ' ∨ c = '\n'))
          ((if neg then ['-'] else []) ++ ds ++
            (',' :: ' ' :: '"' :: 'f' :: 'e' :: 'e' :: 'd' :: 'b' :: 'a' :: 'c' :: 'k' ::
              '"' :: ':' :: ' ' :: '"' :: (F ++ '"' :: '\x7d' :: [])))) from by
    simp]
  rw [containsSub, containsSub]
  simp [List.isPrefixOf]

theorem find_balanced_json_skip (pre : List Char) (hpre : ∀ c ∈ pre, ¬ c = '\x7b')
    (t : List Char) : find_balanced_json (pre ++ t) = find_balanced_json t := by
  induction pre with
  | nil => rfl
  | cons c rest ih =>
    have hc := hpre c (by simp)
    have ht := fun d hd => hpre d (List.mem_cons_of_mem c hd)
    rw [List.cons_append, find_balanced_json]
    simp [hc, ih ht]

theorem find_balanced_json_render (neg : Bool) (ds F : List Char)
    (hdig : ds.all Char.isDigit) (hF : F.all cleanFeedbackChar) (rest : List Char) :
    find_balanced_json (renderScoreFeedback neg ds F ++ rest) =
      some (renderScoreFeedback neg ds F) := by
  have hshape : renderScoreFeedback neg ds F ++ rest =
      '\x7b' :: ('"' :: 's' :: 'c' :: 'o' :: 'r' :: 'e' :: '"' :: ':' :: ' ' ::
        ((if neg then ['-'] else []) ++ ds ++
          (',' :: ' ' :: '"' :: 'f' :: 'e' :: 'e' :: 'd' :: 'b' :: 'a' :: 'c' :: 'k' ::
            '"' :: ':' :: ' ' :: '"' :: (F ++ '"' :: '\x7d' :: rest)))) := by
    simp [renderScoreFeedback]
  rw [hshape, find_balanced_json]
  rw [show ('\x7b' :: ('"' :: 's' :: 'c' :: 'o' :: 'r' :: 'e' :: '"' :: ':' :: ' ' ::
        ((if neg then ['-'] else []) ++ ds ++
          (',' :: ' ' :: '"' :: 'f' :: 'e' :: 'e' :: 'd' :: 'b' :: 'a' :: 'c' :: 'k' ::
            '"' :: ':' :: ' ' :: '"' :: (F ++ '"' :: '\x7d' :: rest))))) =
      renderScoreFeedback neg ds F ++ rest from hshape.symm]
  rw [scanBalanced_render neg ds F hdig hF rest]
  simp [scoreKeyCheck_render neg ds F]


theorem reSearchFence_none (m : List Char) (s : List Char)
    (hs : ∀ c ∈ s, ¬ c = '`') : reSearchFence ('`' :: m) s = none := by
  induction s with
  | nil => rfl
  | cons c rest ih =>
    have hc := hs c (by simp)
    have hpre : ¬ (('`' :: m).isPrefixOf (c :: rest) = true) := by
      simp only [List.isPrefixOf, Bool.and_eq_true, beq_iff_eq]
      rintro ⟨h, -⟩
      exact hc h.symm
    rw [reSearchFence, fenceMatchAt, if_neg hpre]
    exact ih (fun d hd => hs d (List.mem_cons_of_mem c hd))

theorem extractStrategy2_none (s : List Char)
    (hs : ∀ c ∈ s, ¬ c = '`') : extractStrategy2 s = none := by
  simp only [extractStrategy2]
  rw [reSearchFence_none ('`' :: '`' :: [ 'j', 's', 'o', 'n']) s hs,
    reSearchFence_none [ '`', '`'] s hs]

theorem render_no_backtick (neg : Bool) (ds F : List Char)
    (hdig : ds.all Char.isDigit) (hF : F.all cleanFeedbackChar) :
    ∀ c ∈ renderScoreFeedback neg ds F, ¬ c = '`' := by
  have hds : ∀ d ∈ ds, ¬ d = '`' := fun d hd =>
    (digit_not_delim d (List.all_eq_true.mp hdig d hd)).2.2.2.2.2.2.2.2.2.2.1
  have hFb : ∀ d ∈ F, ¬ d = '`' := by
    intro d hd
    have := List.all_eq_true.mp hF d hd
    simp only [cleanFeedbackChar, Bool.and_eq_true, decide_eq_true_eq] at this
    exact this.2.2.1
  simp only [renderScoreFeedback, List.forall_mem_cons, List.forall_mem_append]
  cases neg <;> simp_all

theorem pyWs_of_jsonWs (c : Char) (h : jsonWs c = true) : pyWs c = true := by
  simp only [jsonWs, Bool.or_eq_true, decide_eq_true_eq] at h
  simp only [pyWs, Bool.or_eq_true, decide_eq_true_eq]
  tauto

theorem dropWhile_head_not (p : Char → Bool) (l : List Char) (d : Char) (D : List Char)
    (h : l.dropWhile p = d :: D) : p d = false := by
  induction l with
  | nil => simp [List.dropWhile] at h
  | cons a t ih =>
    rw [List.dropWhile_cons] at h
    by_cases ha : p a = true
    · rw [if_pos ha] at h
      exact ih h
    · rw [if_neg ha] at h
      injection h with h1 h2
      subst h1
      simpa using ha

theorem skipJsonWs_ne_nil (r : List Char) (c0 : Char) (hc0 : c0 ∈ r)
    (h : pyWs c0 = false) : skipJsonWs r ≠ [] := by
  intro hnil
  unfold skipJsonWs at hnil
  rw [List.dropWhile_eq_nil_iff] at hnil
  have := pyWs_of_jsonWs c0 (hnil c0 hc0)
  rw [h] at this
  exact Bool.false_ne_true this

theorem pyStrip_ws_pre (pre mid post : List Char) (hpre : pre.all pyWs)
    (hh : mid.head? = some '\x7b') (hl : mid.reverse.head? = some '\x7d') :
    pyStrip (pre ++ mid ++ post) = mid ++ (post.reverse.dropWhile pyWs).reverse := by
  have h1 : (pre ++ mid ++ post).dropWhile pyWs = mid ++ post := by
    rw [List.append_assoc, dropWhile_append_of_all pyWs pre _ hpre]
    cases mid with
    | nil => simp at hh
    | cons a m =>
      simp only [List.head?_cons, Option.some.injEq] at hh
      subst hh
      rw [List.cons_append, List.dropWhile_cons, if_neg (by decide)]
  obtain ⟨m2, hm2⟩ : ∃ m2, mid.reverse = '\x7d' :: m2 := by
    rcases hrev : mid.reverse with - | ⟨b, m2⟩
    · rw [hrev] at hl
      simp at hl
    · rw [hrev] at hl
      simp only [List.head?_cons, Option.some.injEq] at hl
      subst hl
      exact ⟨m2, rfl⟩
  unfold pyStrip
  rw [h1, List.reverse_append, List.dropWhile_append]
  by_cases hp : (post.reverse.dropWhile pyWs).isEmpty = true
  · rw [if_pos hp, hm2, List.dropWhile_cons, if_neg (by decide), ← hm2]
    have hpe : post.reverse.dropWhile pyWs = [] := by simpa [List.isEmpty_iff] using hp
    simp [hpe]
  · rw [if_neg hp]
    simp [List.reverse_append]

theorem pyStrip_head_of_pre (pre rest2 : List Char) (w : Char) (t : List Char)
    (hpw : pre.dropWhile pyWs = w :: t) (c0 : Char) (hc0 : c0 ∈ rest2)
    (hnws : pyWs c0 = false) :
    (pyStrip (pre ++ rest2)).head? = some w := by
  have h1 : (pre ++ rest2).dropWhile pyWs = w :: (t ++ rest2) := by
    rw [List.dropWhile_append, if_neg (by simp [hpw]), hpw]
    rfl
  have hne : (t ++ rest2).reverse.dropWhile pyWs ≠ [] := by
    intro hall
    rw [List.dropWhile_eq_nil_iff] at hall
    have := hall c0 (by simp [hc0])
    rw [hnws] at this
    exact Bool.false_ne_true this
  unfold pyStrip
  rw [h1, List.reverse_cons, List.dropWhile_append,
    if_neg (by simpa [List.isEmpty_iff] using hne)]
  simp

/-- C7 (amended): for every integer N (an optional sign and a decimal
digit string without leading zeros) and every feedback string F of
printable characters without quotes, backslashes or backticks (extra
brace characters allowed), if the object rendering score N and
feedback F is embedded in a text whose part before the object contains
no opening brace and no backtick and whose part after the object
contains no backtick, then `_extract_json_from_text` returns exactly
that object, regardless of the surrounding noise. -/
theorem extract_embedded_object (neg : Bool) (ds F pre post : List Char)
    (hne : ds ≠ []) (hdig : ds.all Char.isDigit)
    (hlead : ds = ['0'] ∨ ds.head? ≠ some '0')
    (hF : F.all cleanFeedbackChar)
    (hpre : ∀ c ∈ pre, ¬ c = '\x7b' ∧ ¬ c = '`')
    (hpost : ∀ c ∈ post, ¬ c = '`') :
    _extract_json_from_text
        (String.mk (pre ++ renderScoreFeedback neg ds F ++ post)) =
      some (targetJson neg ds F) := by
  have htl : (String.mk (pre ++ renderScoreFeedback neg ds F ++ post)).toList =
      pre ++ renderScoreFeedback neg ds F ++ post := rfl
  have hnb : ∀ c ∈ pre ++ renderScoreFeedback neg ds F ++ post, ¬ c = '`' := by
    intro c hc
    simp only [List.append_assoc, List.mem_append] at hc
    rcases hc with h | h | h
    · exact (hpre c h).2
    · exact render_no_backtick neg ds F hdig hF c h
    · exact hpost c h
  have hs2 : extractStrategy2 (pre ++ renderScoreFeedback neg ds F ++ post) = none :=
    extractStrategy2_none _ hnb
  have hloads := jsonLoads_render neg ds F hne hdig hlead hF []
  rw [List.append_nil] at hloads
  have hs3 : extractStrategy3 (pre ++ renderScoreFeedback neg ds F ++ post) =
      some (targetJson neg ds F) := by
    unfold extractStrategy3
    rw [List.append_assoc, find_balanced_json_skip pre (fun c hc => (hpre c hc).1) _,
      find_balanced_json_render neg ds F hdig hF post]
    show jsonLoads (renderScoreFeedback neg ds F) = some (targetJson neg ds F)
    rw [hloads]
    rfl
  by_cases hpw : pre.dropWhile pyWs = []
  · have hpreall : pre.all pyWs :=
      List.all_eq_true.mpr (List.dropWhile_eq_nil_iff.mp hpw)
    have hstrip := pyStrip_ws_pre pre (renderScoreFeedback neg ds F) post hpreall
      (by simp [renderScoreFeedback]) (by simp [renderScoreFeedback])
    by_cases hp0 : post.reverse.dropWhile pyWs = []
    · have h1 : extractStrategy1
          (pyStrip (pre ++ renderScoreFeedback neg ds F ++ post)) =
          some (targetJson neg ds F) := by
        rw [hstrip, hp0]
        simp only [List.reverse_nil, List.append_nil]
        unfold extractStrategy1
        rw [if_pos (by simp [renderScoreFeedback]), hloads]
        rfl
      simp only [_extract_json_from_text, htl]
      rw [h1]
    · obtain ⟨d, D, hdD⟩ : ∃ d D, post.reverse.dropWhile pyWs = d :: D := by
        rcases h : post.reverse.dropWhile pyWs with - | ⟨d, D⟩
        · exact absurd h hp0
        · exact ⟨d, D, rfl⟩
      have hd_nws : pyWs d = false := dropWhile_head_not pyWs post.reverse d D hdD
      have h1 : extractStrategy1
          (pyStrip (pre ++ renderScoreFeedback neg ds F ++ post)) = none := by
        rw [hstrip, hdD]
        unfold extractStrategy1
        rw [if_pos (by simp [renderScoreFeedback])]
        rw [jsonLoads_render neg ds F hne hdig hlead hF ((d :: D).reverse)]
        rw [if_neg (skipJsonWs_ne_nil _ d (by simp) hd_nws)]
      simp only [_extract_json_from_text, htl]
      rw [h1, hs2, hs3]
  · obtain ⟨w, t, hwt⟩ : ∃ w t, pre.dropWhile pyWs = w :: t := by
      rcases h : pre.dropWhile pyWs with - | ⟨w, t⟩
      · exact absurd h hpw
      · exact ⟨w, t, rfl⟩
    have hw_mem : w ∈ pre :=
      (List.dropWhile_sublist pyWs).subset (by rw [hwt]; exact List.mem_cons_self w t)
    have hw_ne : ¬ w = '\x7b' := (hpre w hw_mem).1
    have hhead : (pyStrip (pre ++ renderScoreFeedback neg ds F ++ post)).head? =
        some w := by
      rw [List.append_assoc]
      exact pyStrip_head_of_pre pre _ w t hwt '\x7b' (by simp [renderScoreFeedback])
        (by decide)
    have h1 : extractStrategy1
        (pyStrip (pre ++ renderScoreFeedback neg ds F ++ post)) = none := by
      unfold extractStrategy1
      rw [if_neg ?hcond]
      case hcond =>
        rw [hhead]
        intro hcontr
        injection hcontr with he
        exact hw_ne he
    simp only [_extract_json_from_text, htl]
    rw [h1, hs2, hs3]

/-- C7 counterexample: the decimal-5 object is embedded in
`cexEmbedText` (preceded by the decimal-0 object and a space), yet the
extraction returns the decimal-0 object, not the decimal-5 one: an
embedded well-formed score/feedback object is not always the object
returned. -/
theorem extract_embedded_first_cex :
    cexEmbedText = String.mk ((renderScoreFeedback false [ '0'] [ 'x'] ++ [ ' ']) ++
      renderScoreFeedback false [ '5'] [ 'y'] ++ []) ∧
    _extract_json_from_text cexEmbedText = some (targetJson false [ '0'] [ 'x']) ∧
    ¬ targetJson false [ '0'] [ 'x'] = targetJson false [ '5'] [ 'y'] := by
  refine ⟨rfl, ?_, ?_⟩
  case refine_2 =>
    intro h
    simp only [targetJson] at h
    injection h with hfields
    injection hfields with hp1 hrest
    injection hp1 with hk1 hv1
    injection hv1 with hn
    exact absurd hn (by decide)
  have htl : cexEmbedText.toList =
      renderScoreFeedback false [ '0'] [ 'x'] ++
        (' ' :: renderScoreFeedback false [ '5'] [ 'y']) := by
    show (renderScoreFeedback false [ '0'] [ 'x'] ++ [ ' ']) ++
        renderScoreFeedback false [ '5'] [ 'y'] ++ [] =
      renderScoreFeedback false [ '0'] [ 'x'] ++
        (' ' :: renderScoreFeedback false [ '5'] [ 'y'])
    simp
  have hloads0 := jsonLoads_render false [ '0'] [ 'x'] (by decide) (by decide)
    (Or.inl rfl) (by decide) []
  rw [List.append_nil] at hloads0
  have h1 : extractStrategy1 (pyStrip (renderScoreFeedback false [ '0'] [ 'x'] ++
      (' ' :: renderScoreFeedback false [ '5'] [ 'y']))) = none := by
    have hstrip : pyStrip (renderScoreFeedback false [ '0'] [ 'x'] ++
        (' ' :: renderScoreFeedback false [ '5'] [ 'y'])) =
        renderScoreFeedback false [ '0'] [ 'x'] ++
          (' ' :: renderScoreFeedback false [ '5'] [ 'y']) := by decide
    rw [hstrip]
    unfold extractStrategy1
    rw [if_pos (by simp [renderScoreFeedback])]
    rw [jsonLoads_render false [ '0'] [ 'x'] (by decide) (by decide) (Or.inl rfl)
      (by decide) (' ' :: renderScoreFeedback false [ '5'] [ 'y'])]
    rw [if_neg (by decide)]
  have h2 : extractStrategy2 (renderScoreFeedback false [ '0'] [ 'x'] ++
      (' ' :: renderScoreFeedback false [ '5'] [ 'y'])) = none :=
    extractStrategy2_none _ (by decide)
  have h3 : extractStrategy3 (renderScoreFeedback false [ '0'] [ 'x'] ++
      (' ' :: renderScoreFeedback false [ '5'] [ 'y'])) =
      some (targetJson false [ '0'] [ 'x']) := by
    unfold extractStrategy3
    rw [find_balanced_json_render false [ '0'] [ 'x'] (by decide) (by decide)
      (' ' :: renderScoreFeedback false [ '5'] [ 'y'])]
    show jsonLoads (renderScoreFeedback false [ '0'] [ 'x']) =
      some (targetJson false [ '0'] [ 'x'])
    rw [hloads0]
    rfl
  simp only [_extract_json_from_text, htl]
  rw [h1, h2, h3]

/-- Witness for the amended C7 theorem at a concrete input: score 7,
feedback ok, a leading space and a trailing exclamation mark. -/
theorem extract_embedded_object_witness :
    _extract_json_from_text
        (String.mk ([ ' '] ++ renderScoreFeedback false [ '7'] [ 'o', 'k'] ++ [ '!'])) =
      some (targetJson false [ '7'] [ 'o', 'k']) :=
  extract_embedded_object false [ '7'] [ 'o', 'k'] [ ' '] [ '!'] (by decide) (by decide)
    (Or.inr (by decide)) (by decide) (by decide) (by decide)

end OmjValidator
